import Mathlib

/-!
Verification development for the tycho-arbitrage trading core.

This file shallowly embeds the parts of the repository needed to settle the
frozen claims: the trading graph (`src/graph/core.rs`, `src/graph/types.rs`),
the path repository (`src/path/repository.rs`), the path execution model
(`src/path/mod.rs`) and the three example optimizers
(`examples/arbitrage-bot/context/optimizers.rs`).

Modelling conventions:
- `Bytes` (addresses) are modelled as `Nat`.
- `BigUint` is `Nat`, `BigInt` is `Int`.
- Rust `HashMap` becomes an association list (`List (κ × ν)`); insertion of a
  fresh key prepends, in-place updates rewrite the matching entry.  Lookup is
  the first matching entry.  `HashSet` becomes a `List` with insert-if-absent.
- Rust `f64` arithmetic in the optimizers is modelled by exact `ℚ` arithmetic;
  the claims settled here depend only on control flow (iteration counts,
  error propagation, best-so-far tracking), not on rounding.
- Fallible Rust functions return `Except`; `&mut self` methods are modelled by
  explicit state passing.  Methods that can perform partial mutation before an
  error return the (possibly mutated) state next to the `Except` value.
- Recursive discovery procedures carry a `Nat` fuel argument that is a strict
  upper bound on the remaining recursion depth of the source function, so the
  fuel is never exhausted on the calls the source actually makes.
-/

namespace TychoArb

instance {ε α : Type} [DecidableEq ε] [DecidableEq α] : DecidableEq (Except ε α) :=
  fun a b =>
    match a, b with
    | .ok x, .ok y =>
      if h : x = y then .isTrue (by rw [h]) else .isFalse (by simp [h])
    | .error e, .error e₁ =>
      if h : e = e₁ then .isTrue (by rw [h]) else .isFalse (by simp [h])
    | .ok _, .error _ => .isFalse (by simp)
    | .error _, .ok _ => .isFalse (by simp)

/-! ### Association-list and list helpers (model of HashMap / HashSet / Vec) -/

def alistLookup {κ ν : Type} [DecidableEq κ] (k : κ) : List (κ × ν) → Option ν
  | [] => none
  | (k₁, v) :: rest => if k = k₁ then some v else alistLookup k rest

/-- Model of `HashMap::insert` for a key known to be fresh, and of
`entry(k).or_insert(v)` when the key is absent: prepend the binding. -/
def alistInsert {κ ν : Type} (k : κ) (v : ν) (m : List (κ × ν)) : List (κ × ν) :=
  (k, v) :: m

/-- Model of `get_mut(k)` followed by an in-place update: rewrite the first
binding of `k`, leave the map unchanged when `k` is absent. -/
def alistModify {κ ν : Type} [DecidableEq κ] (k : κ) (f : ν → ν) :
    List (κ × ν) → List (κ × ν)
  | [] => []
  | (k₁, v) :: rest =>
    if k = k₁ then (k₁, f v) :: rest else (k₁, v) :: alistModify k f rest

/-- Model of `HashMap::remove`. -/
def alistRemove {κ ν : Type} [DecidableEq κ] (k : κ) :
    List (κ × ν) → List (κ × ν)
  | [] => []
  | (k₁, v) :: rest =>
    if k = k₁ then rest else (k₁, v) :: alistRemove k rest

/-- Model of `entry(k).or_insert_with(Vec::new).push(x)`. -/
def alistPush {κ : Type} [DecidableEq κ] (k : κ) (x : Nat) :
    List (κ × List Nat) → List (κ × List Nat)
  | [] => [(k, [x])]
  | (k₁, vs) :: rest =>
    if k = k₁ then (k₁, vs ++ [x]) :: rest else (k₁, vs) :: alistPush k x rest

/-- In-place update of one vector slot, model of `v[i] = x` / `v[i].f()`. -/
def listModify {α : Type} (l : List α) (i : Nat) (f : α → α) : List α :=
  match l, i with
  | [], _ => []
  | x :: xs, 0 => f x :: xs
  | x :: xs, i + 1 => x :: listModify xs i f

/-- Model of `Vec::swap_remove(i)`: move the last element into slot `i` and
pop the last slot. -/
def swapRemove {α : Type} (l : List α) (i : Nat) : List α :=
  match l.getLast? with
  | none => l
  | some last => (l.set i last).dropLast

/-- Model of `Vec::dedup()`: drop adjacent duplicates. -/
def dedupAdj : List Nat → List Nat
  | [] => []
  | [x] => [x]
  | x :: y :: rest =>
    if x = y then dedupAdj (y :: rest) else x :: dedupAdj (y :: rest)

/-- Insert into a sorted list, the building block of the model of
`sort_unstable()`. -/
def sortedInsert (x : Nat) : List Nat → List Nat
  | [] => [x]
  | y :: rest => if x ≤ y then x :: y :: rest else y :: sortedInsert x rest

/-- Model of `Vec::sort_unstable()`. -/
def sortNat : List Nat → List Nat
  | [] => []
  | x :: rest => sortedInsert x (sortNat rest)

/-- Model of the `sort_unstable(); dedup();` idiom. -/
def sortDedup (l : List Nat) : List Nat :=
  dedupAdj (sortNat l)

/-! ### Graph data model (`src/graph/types.rs`) -/

/-- Error family of `src/errors/graph.rs`, restricted to the variants the
embedded operations produce. -/
inductive GraphError : Type
  | NonExistentNode (index : Nat)
  | InvalidNodeIndex (index : Nat)
  | InvalidEdgeIndex (index : Nat)
  | NodeNotFound (address : Nat)
  | EdgeNotFound (address : Nat)
  | DuplicateEdge (address : Nat)
  | PathNotFound
  | InvalidTokenCount (count : Nat)
deriving Repr, DecidableEq

/-- `TokenNode`: token address plus the set of neighboring token ids,
the `HashSet` modelled as a duplicate-free list. -/
structure TokenNode : Type where
  address : Nat
  neighbors : List Nat
deriving Repr, DecidableEq

def TokenNode.new (address : Nat) : TokenNode :=
  ⟨address, []⟩

def TokenNode.addNeighbor (t : TokenNode) (id : Nat) : TokenNode :=
  if id ∈ t.neighbors then t else ⟨t.address, t.neighbors ++ [id]⟩

def TokenNode.removeNeighbor (t : TokenNode) (id : Nat) : TokenNode :=
  ⟨t.address, t.neighbors.filter (fun n => n ≠ id)⟩

/-- `LiquidityPool`: a directed edge, pool address plus the ordered pair
`[token_in, token_out]`. -/
structure LiquidityPool : Type where
  address : Nat
  tokens : Nat × Nat
deriving Repr, DecidableEq

/-- `PoolInfo`: result of one pair insertion. -/
structure PoolInfo : Type where
  token_ids : Nat × Nat
  pool_ids : Nat × Nat
deriving Repr, DecidableEq

/-- `TradingGraph` state (`src/graph/core.rs`). -/
structure TradingGraph : Type where
  tokens : List TokenNode
  pools : List LiquidityPool
  token_address_to_id : List (Nat × Nat)
  token_pair_to_pools : List ((Nat × Nat) × List Nat)
deriving Repr, DecidableEq

def TradingGraph.new : TradingGraph :=
  ⟨[], [], [], []⟩

/-! ### Graph operations (`src/graph/core.rs`) -/

/-- `TradingGraph::add_token`.  The Rust signature returns `Result<TokenId>`
but never fails; the model returns the new state and the id directly. -/
def addToken (g : TradingGraph) (address : Nat) : TradingGraph × Nat :=
  match alistLookup address g.token_address_to_id with
  | some existingId => (g, existingId)
  | none =>
    let tokenId := g.tokens.length
    (⟨g.tokens ++ [TokenNode.new address], g.pools,
      alistInsert address tokenId g.token_address_to_id,
      g.token_pair_to_pools⟩, tokenId)

/-- `TradingGraph::find_token_id`. -/
def findTokenId (g : TradingGraph) (address : Nat) : Except GraphError Nat :=
  match alistLookup address g.token_address_to_id with
  | some id => .ok id
  | none => .error (.NodeNotFound address)

/-- `TradingGraph::get_token`. -/
def getToken (g : TradingGraph) (tokenId : Nat) : Except GraphError TokenNode :=
  match g.tokens.get? tokenId with
  | some t => .ok t
  | none => .error (.InvalidNodeIndex tokenId)

/-- `TradingGraph::get_pool`. -/
def getPool (g : TradingGraph) (poolId : Nat) : Except GraphError LiquidityPool :=
  match g.pools.get? poolId with
  | some p => .ok p
  | none => .error (.InvalidEdgeIndex poolId)

/-- `TradingGraph::token_neighbors`. -/
def tokenNeighbors (g : TradingGraph) (tokenId : Nat) : Except GraphError (List Nat) :=
  if g.tokens.length ≤ tokenId then .error (.InvalidNodeIndex tokenId)
  else .ok ((g.tokens.getD tokenId (TokenNode.new 0)).neighbors)

/-- `TradingGraph::pools_between_tokens`. -/
def poolsBetweenTokens (g : TradingGraph) (tokenPair : Nat × Nat) :
    Except GraphError (List Nat) :=
  match alistLookup tokenPair g.token_pair_to_pools with
  | some pools => .ok pools
  | none => .error .PathNotFound

/-- `TradingGraph::add_pool_directed`.  Fails (without mutating) when a pool
with the same address already sits between the exact ordered pair. -/
def addPoolDirected (g : TradingGraph) (address : Nat) (tokenIds : Nat × Nat) :
    Except GraphError (TradingGraph × Nat) :=
  let poolId := g.pools.length
  let dup :=
    match alistLookup tokenIds g.token_pair_to_pools with
    | some existingPools =>
      existingPools.any (fun id => (g.pools.getD id ⟨0, (0, 0)⟩).address = address)
    | none => false
  if dup then .error (.DuplicateEdge address)
  else
    let g₁ :=
      match alistLookup tokenIds g.token_pair_to_pools with
      | some _ =>
        { g with token_pair_to_pools :=
            alistModify tokenIds (fun pl => pl ++ [poolId]) g.token_pair_to_pools }
      | none =>
        { g with
          token_pair_to_pools :=
            alistInsert tokenIds [poolId] g.token_pair_to_pools,
          tokens :=
            listModify
              (listModify g.tokens tokenIds.1 (fun t => t.addNeighbor tokenIds.2))
              tokenIds.2 (fun t => t.addNeighbor tokenIds.1) }
    .ok ({ g₁ with pools := g₁.pools ++ [LiquidityPool.mk address tokenIds] }, poolId)

/-- `TradingGraph::add_pool`: validate both endpoints, then insert both
directions.  An error from the second directed insertion leaves the first
insertion in place, as in the source. -/
def addPool (g : TradingGraph) (address : Nat) (tokenIds : Nat × Nat) :
    TradingGraph × Except GraphError (Nat × Nat) :=
  if g.tokens.length ≤ tokenIds.1 then (g, .error (.NonExistentNode tokenIds.1))
  else if g.tokens.length ≤ tokenIds.2 then (g, .error (.NonExistentNode tokenIds.2))
  else
    match addPoolDirected g address tokenIds with
    | .error e => (g, .error e)
    | .ok (g₁, poolId₁) =>
      match addPoolDirected g₁ address (tokenIds.2, tokenIds.1) with
      | .error e => (g₁, .error e)
      | .ok (g₂, poolId₂) => (g₂, .ok (poolId₁, poolId₂))

/-- `TradingGraph::remove_pool_by_address_and_tokens`: remove the single
directed entry with this address under this exact ordered pair, fixing the
pair index for the pool that `swap_remove` moves. -/
def removePoolByAddressAndTokens (g : TradingGraph) (address : Nat)
    (tokenPair : Nat × Nat) : Except GraphError TradingGraph :=
  let found :=
    match alistLookup tokenPair g.token_pair_to_pools with
    | some poolIds =>
      poolIds.find? (fun id => (g.pools.getD id ⟨0, (0, 0)⟩).address = address)
    | none => none
  match found with
  | none => .error (.EdgeNotFound address)
  | some poolIdToRemove =>
    let lastPoolId := g.pools.length - 1
    let m₁ :=
      if poolIdToRemove ≠ lastPoolId then
        let lastPoolTokens := (g.pools.getD lastPoolId ⟨0, (0, 0)⟩).tokens
        alistModify lastPoolTokens
          (fun pl =>
            match pl.indexOf? lastPoolId with
            | some idx => pl.set idx poolIdToRemove
            | none => pl)
          g.token_pair_to_pools
      else g.token_pair_to_pools
    let retained :=
      match alistLookup tokenPair m₁ with
      | some pl => pl.filter (fun id => id ≠ poolIdToRemove)
      | none => []
    let (m₂, tokens₂) :=
      match alistLookup tokenPair m₁ with
      | some _ =>
        if retained.isEmpty then
          (alistRemove tokenPair (alistModify tokenPair (fun _ => retained) m₁),
           listModify
             (listModify g.tokens tokenPair.1 (fun t => t.removeNeighbor tokenPair.2))
             tokenPair.2 (fun t => t.removeNeighbor tokenPair.1))
        else (alistModify tokenPair (fun _ => retained) m₁, g.tokens)
      | none => (m₁, g.tokens)
    .ok ⟨tokens₂, swapRemove g.pools poolIdToRemove,
      g.token_address_to_id, m₂⟩

/-- `TradingGraph::remove_token`: validate the id, collect the pools listed
under the `[token_id, neighbor]` ordered pairs, remove those entries (ignoring
individual failures), then swap-remove the token slot and fix the
address-to-id mapping for the moved token. -/
def removeToken (g : TradingGraph) (tokenId : Nat) : Except GraphError TradingGraph :=
  if g.tokens.length ≤ tokenId then .error (.InvalidNodeIndex tokenId)
  else
    let neighbors := (g.tokens.getD tokenId (TokenNode.new 0)).neighbors
    let poolsToRemove :=
      neighbors.foldl
        (fun acc neighborId =>
          match poolsBetweenTokens g (tokenId, neighborId) with
          | .ok poolIds =>
            acc ++ poolIds.map
              (fun poolId =>
                ((g.pools.getD poolId ⟨0, (0, 0)⟩).address, (tokenId, neighborId)))
          | .error _ => acc)
        []
    let g₁ :=
      poolsToRemove.foldl
        (fun acc p =>
          match removePoolByAddressAndTokens acc p.1 p.2 with
          | .ok next => next
          | .error _ => acc)
        g
    let lastTokenId := g₁.tokens.length - 1
    let m₁ :=
      if tokenId ≠ lastTokenId then
        alistModify (g₁.tokens.getD lastTokenId (TokenNode.new 0)).address
          (fun _ => tokenId) g₁.token_address_to_id
      else g₁.token_address_to_id
    let m₂ := alistRemove (g₁.tokens.getD tokenId (TokenNode.new 0)).address m₁
    .ok ⟨swapRemove g₁.tokens tokenId, g₁.pools, m₂, g₁.token_pair_to_pools⟩

/-- `TradingGraph::generate_token_pairs`: all 2-combinations, in order. -/
def generateTokenPairs (tokenAddresses : List Nat) : List (Nat × Nat) :=
  (List.range tokenAddresses.length).flatMap
    (fun i =>
      (List.range tokenAddresses.length).filterMap
        (fun j =>
          if i < j then some (tokenAddresses.getD i 0, tokenAddresses.getD j 0)
          else none))

/-- Loop body chain of `TradingGraph::add_protocol_component`: add or reuse
both tokens of the pair, then insert the bidirectional pool; an error stops
the loop, keeping earlier mutations (the Rust `?`). -/
def addComponentPairs (g : TradingGraph) (poolAddress : Nat) :
    List (Nat × Nat) → TradingGraph × Except GraphError (List PoolInfo)
  | [] => (g, .ok [])
  | pair :: rest =>
    let (g₁, tokenId₀) := addToken g pair.1
    let (g₂, tokenId₁) := addToken g₁ pair.2
    match addPool g₂ poolAddress (tokenId₀, tokenId₁) with
    | (g₃, .error e) => (g₃, .error e)
    | (g₃, .ok poolIds) =>
      match addComponentPairs g₃ poolAddress rest with
      | (g₄, .error e) => (g₄, .error e)
      | (g₄, .ok infos) =>
        (g₄, .ok (PoolInfo.mk (tokenId₀, tokenId₁) poolIds :: infos))

/-- `TradingGraph::add_protocol_component`: validate the token count
(2 to 4), generate all pairs and insert one bidirectional pool per pair.
The component is modelled by its list of token addresses. -/
def addProtocolComponent (g : TradingGraph) (poolAddress : Nat)
    (tokenAddresses : List Nat) : TradingGraph × Except GraphError (List PoolInfo) :=
  if tokenAddresses.length < 2 ∨ 4 < tokenAddresses.length then
    (g, .error (.InvalidTokenCount tokenAddresses.length))
  else addComponentPairs g poolAddress (generateTokenPairs tokenAddresses)

/-! ### Path repository (`src/path/repository.rs`) -/

/-- Error family of `src/errors/path.rs`, restricted to the variants the
embedded operations produce.  The Rust `AmountExceedsLimits` fields are the
decimal renderings of the two amounts; the model keeps the amounts. -/
inductive PathError : Type
  | EmptyPath
  | AmountExceedsLimits (requested : Nat) (maxAvailable : Nat)
  | PoolNotFoundInRepository (pool : Nat)
  | InvalidPathIndex (index : Nat)
  | SimulationFailure
deriving Repr, DecidableEq

/-- `PathRepository` state. -/
structure PathRepository : Type where
  source_tokens : List Nat
  maximum_path_length : Nat
  token_paths : List (List Nat)
  pool_paths : List (List Nat)
  token_to_path_indices : List (Nat × List Nat)
  pool_to_path_indices : List (Nat × List Nat)
deriving Repr, DecidableEq

/-- `PathRepository::new`. -/
def PathRepository.new (sourceTokens : List Nat) (maximumPathLength : Nat) :
    PathRepository :=
  ⟨sourceTokens, maximumPathLength, [], [], [], []⟩

/-- `PathRepository::get_path_indices_for_pool`. -/
def getPathIndicesForPool (repo : PathRepository) (poolAddress : Nat) :
    Except PathError (List Nat) :=
  match alistLookup poolAddress repo.pool_to_path_indices with
  | some indices => .ok indices
  | none => .error (.PoolNotFoundInRepository poolAddress)

/-- `PathRepository::get_path_indices_for_pools`: concatenate the per-pool
lists of the pools the index knows (silently skipping unknown pools), then
sort and deduplicate.  Always returns `Ok`. -/
def getPathIndicesForPools (repo : PathRepository) (poolAddresses : List Nat) :
    Except PathError (List Nat) :=
  let pathIndices :=
    poolAddresses.foldl
      (fun acc poolAddress =>
        match getPathIndicesForPool repo poolAddress with
        | .ok indices => acc ++ indices
        | .error _ => acc)
      []
  .ok (sortDedup pathIndices)

/-- `PathRepository::resolve_source_token_indices`. -/
def resolveSourceTokenIndices (repo : PathRepository) (g : TradingGraph) :
    List Nat :=
  repo.source_tokens.filterMap
    (fun tokenAddress =>
      match findTokenId g tokenAddress with
      | .ok index => some index
      | .error _ => none)

/-- `PathRepository::should_explore_token_neighbor`. -/
def shouldExploreTokenNeighbor (neighborIndex newTokenOffset : Nat)
    (sourceIndices currentPath : List Nat) : Bool :=
  newTokenOffset ≤ neighborIndex
    && !(sourceIndices.contains neighborIndex)
    && !(currentPath.contains neighborIndex)

/-- `PathRepository::store_discovered_token_path`. -/
def storeDiscoveredTokenPath (g : TradingGraph) (tokenPath : List Nat)
    (repo : PathRepository) : PathRepository :=
  let pathIndex := repo.token_paths.length
  let newIndex :=
    tokenPath.foldl
      (fun acc tokenIndex =>
        match getToken g tokenIndex with
        | .ok token => alistPush token.address pathIndex acc
        | .error _ => acc)
      repo.token_to_path_indices
  { repo with
    token_to_path_indices := newIndex,
    token_paths := repo.token_paths ++ [tokenPath] }

/-- `PathRepository::discover_token_paths_recursive`.  The fuel bounds the
remaining recursion depth (`target_length - current_path.len()`); the entry
points always supply enough fuel, so the `0` branch is never taken on the
source's executions. -/
def discoverTokenPathsRecursive (g : TradingGraph) (sourceIndices : List Nat)
    (newTokenOffset targetLength : Nat) :
    Nat → List Nat → PathRepository → PathRepository
  | 0, _, repo => repo
  | fuel + 1, currentPath, repo =>
    match currentPath.getLast? with
    | none => repo
    | some currentTokenIndex =>
      match tokenNeighbors g currentTokenIndex with
      | .error _ => repo
      | .ok neighborIndices =>
        if targetLength = currentPath.length then
          if neighborIndices.any (fun idx => sourceIndices.contains idx) then
            storeDiscoveredTokenPath g currentPath repo
          else repo
        else
          neighborIndices.foldl
            (fun acc neighborIndex =>
              if shouldExploreTokenNeighbor neighborIndex newTokenOffset
                  sourceIndices currentPath then
                discoverTokenPathsRecursive g sourceIndices newTokenOffset
                  targetLength fuel (currentPath ++ [neighborIndex]) acc
              else acc)
            repo

/-- `PathRepository::discover_token_paths`: all target lengths
`2..=maximum_path_length`, all resolved sources. -/
def discoverTokenPaths (g : TradingGraph) (sourceIndices : List Nat)
    (newTokenOffset : Nat) (repo : PathRepository) : PathRepository :=
  (List.range' 2 (repo.maximum_path_length - 1)).foldl
    (fun acc pathLength =>
      sourceIndices.foldl
        (fun acc₁ sourceIndex =>
          discoverTokenPathsRecursive g sourceIndices newTokenOffset pathLength
            pathLength [sourceIndex] acc₁)
        acc)
    repo

/-- `PathRepository::find_tokens_affected_by_new_pools`: the
`filter_map(get_pool).flat_map(tokens)` chain, then sort and dedup. -/
def findTokensAffectedByNewPools (g : TradingGraph)
    (newPoolOffset newPoolCount : Nat) : List Nat :=
  sortDedup
    ((List.range' newPoolOffset newPoolCount).flatMap
      (fun poolIndex =>
        match getPool g poolIndex with
        | .ok pool => [pool.tokens.1, pool.tokens.2]
        | .error _ => []))

/-- `PathRepository::find_relevant_token_paths`: the
`filter_map(get_token).flat_map(index lookup)` chain, then sort and dedup. -/
def findRelevantTokenPaths (repo : PathRepository) (g : TradingGraph)
    (affectedTokenIndices : List Nat) : List Nat :=
  sortDedup
    (affectedTokenIndices.flatMap
      (fun tokenIndex =>
        match getToken g tokenIndex with
        | .ok token =>
          (alistLookup token.address repo.token_to_path_indices).getD []
        | .error _ => []))

/-- `PathRepository::should_include_new_pools`. -/
def shouldIncludeNewPools (connectingPools : List Nat) (newPoolOffset : Nat) :
    Bool :=
  connectingPools.any (fun poolIndex => newPoolOffset ≤ poolIndex)

/-- Address comparison inside `should_use_pool_in_path`: two pool indices
clash when both resolve and share their pool address. -/
def poolAddrClash (g : TradingGraph) (existingPoolIndex poolIndex : Nat) : Bool :=
  match getPool g existingPoolIndex, getPool g poolIndex with
  | .ok existingPool, .ok currentPool =>
    existingPool.address = currentPool.address
  | _, _ => false

/-- `PathRepository::should_use_pool_in_path`. -/
def shouldUsePoolInPath (g : TradingGraph) (poolIndex newPoolOffset : Nat)
    (shouldIncludeNewPoolsFlag : Bool) (currentPoolPath : List Nat) : Bool :=
  let poolIsNew := newPoolOffset ≤ poolIndex
  let shouldInclude := !shouldIncludeNewPoolsFlag || poolIsNew
  if !shouldInclude then false
  else
    let poolAlreadyUsed :=
      currentPoolPath.any
        (fun existingPoolIndex => poolAddrClash g existingPoolIndex poolIndex)
    !poolAlreadyUsed

/-- `PathRepository::store_discovered_pool_path`. -/
def storeDiscoveredPoolPath (g : TradingGraph) (poolPath : List Nat)
    (repo : PathRepository) : PathRepository :=
  let pathIndex := repo.pool_paths.length
  let newIndex :=
    poolPath.foldl
      (fun acc poolIndex =>
        match getPool g poolIndex with
        | .ok pool => alistPush pool.address pathIndex acc
        | .error _ => acc)
      repo.pool_to_path_indices
  { repo with
    pool_to_path_indices := newIndex,
    pool_paths := repo.pool_paths ++ [poolPath] }

/-- `PathRepository::discover_pool_paths_recursive`.  The fuel bounds the
remaining recursion depth (`token_path.len() - current_pool_path.len()`); the
entry point always supplies enough fuel. -/
def discoverPoolPathsRecursive (g : TradingGraph) (newPoolOffset : Nat)
    (tokenPath : List Nat) :
    Nat → List Nat → PathRepository → PathRepository
  | 0, _, repo => repo
  | fuel + 1, currentPoolPath, repo =>
    let currentPosition := currentPoolPath.length
    if currentPosition = tokenPath.length then
      storeDiscoveredPoolPath g currentPoolPath repo
    else
      let currentToken := tokenPath.getD currentPosition 0
      let nextToken := tokenPath.getD ((currentPosition + 1) % tokenPath.length) 0
      match poolsBetweenTokens g (currentToken, nextToken) with
      | .error _ => repo
      | .ok connectingPools =>
        let includeNew := shouldIncludeNewPools connectingPools newPoolOffset
        connectingPools.foldl
          (fun acc poolIndex =>
            if shouldUsePoolInPath g poolIndex newPoolOffset includeNew
                currentPoolPath then
              discoverPoolPathsRecursive g newPoolOffset tokenPath fuel
                (currentPoolPath ++ [poolIndex]) acc
            else acc)
          repo

/-- `PathRepository::discover_pool_paths_from_updates`. -/
def discoverPoolPathsFromUpdates (g : TradingGraph)
    (newPoolOffset newPoolCount : Nat) (repo : PathRepository) : PathRepository :=
  let affectedTokenIndices :=
    findTokensAffectedByNewPools g newPoolOffset newPoolCount
  let relevantTokenPathIndices :=
    findRelevantTokenPaths repo g affectedTokenIndices
  relevantTokenPathIndices.foldl
    (fun acc tokenPathIndex =>
      let tokenPath := acc.token_paths.getD tokenPathIndex []
      discoverPoolPathsRecursive g newPoolOffset tokenPath
        (tokenPath.length + 1) [] acc)
    repo

/-- `PathRepository::discover_paths`.  The `_new_token_count` argument is
unused by the source and kept for signature fidelity. -/
def discoverPaths (repo : PathRepository) (g : TradingGraph)
    (newTokenOffset _newTokenCount newPoolOffset newPoolCount : Nat) :
    PathRepository :=
  let sourceIndices := resolveSourceTokenIndices repo g
  let repo₁ := discoverTokenPaths g sourceIndices newTokenOffset repo
  discoverPoolPathsFromUpdates g newPoolOffset newPoolCount repo₁

/-! ### Swap / Path execution model (`src/path/swap.rs`, `src/path/mod.rs`)

A `Swap` delegates pricing to an injected capability; the model keeps exactly
the two injected functions the embedded path operations call
(`get_limits` and `get_amount_out`), each fallible.  The pool metadata fields
(`pool_comp`, `pool_sim`, `zero_for_one`) are cloned unchanged by the embedded
operations and are omitted. -/

/-- Result of `ProtocolSim::get_amount_out`. -/
structure GetAmountOutResult : Type where
  amount : Nat
  gas : Nat
deriving Repr, DecidableEq

/-- A single hop with its injected pricing capability. -/
structure Swap : Type where
  get_limits : Except PathError (Nat × Nat)
  get_amount_out : Nat → Except PathError GetAmountOutResult

/-- A `Path` is a sequence of swaps. -/
def Path : Type := List Swap

/-- `SwapExt`: one executed hop.  The cloned pool metadata is omitted. -/
structure SwapExt : Type where
  amount_in : Nat
  amount_out : Nat
  gas : Nat
deriving Repr, DecidableEq

/-- Hop loop of `Path::calculate_profit_loss`: thread the amount through the
hops, checking the input limit before and the output limit after each hop. -/
def cplLoop : List Swap → Nat → Except PathError Nat
  | [], currentAmount => .ok currentAmount
  | swap :: rest, currentAmount =>
    match swap.get_limits with
    | .error e => .error e
    | .ok (maxIn, maxOut) =>
      if maxIn < currentAmount then
        .error (.AmountExceedsLimits currentAmount maxIn)
      else
        match swap.get_amount_out currentAmount with
        | .error e => .error e
        | .ok res =>
          if maxOut < res.amount then
            .error (.AmountExceedsLimits res.amount maxOut)
          else cplLoop rest res.amount

/-- `Path::calculate_profit_loss`. -/
def calculateProfitLoss (path : Path) (amountIn : Nat) : Except PathError Int :=
  if path.isEmpty then .error .EmptyPath
  else
    match cplLoop path amountIn with
    | .error e => .error e
    | .ok finalAmount => .ok ((finalAmount : Int) - (amountIn : Int))

/-- Hop loop of `Path::execute_with_amount`: thread the amount through the
hops, materializing every intermediate amount and gas estimate; no limit
checks are performed. -/
def ewaLoop : List Swap → Nat → Except PathError (Nat × List SwapExt)
  | [], currentAmount => .ok (currentAmount, [])
  | swap :: rest, currentAmount =>
    match swap.get_amount_out currentAmount with
    | .error e => .error e
    | .ok res =>
      match ewaLoop rest res.amount with
      | .error e => .error e
      | .ok (finalAmount, swaps) =>
        .ok (finalAmount, SwapExt.mk currentAmount res.amount res.gas :: swaps)

/-- `Path::execute_with_amount`. -/
def executeWithAmount (path : Path) (amountIn : Nat) :
    Except PathError (List SwapExt) :=
  if path.isEmpty then .error .EmptyPath
  else
    match ewaLoop path amountIn with
    | .error e => .error e
    | .ok (_, swaps) => .ok swaps

/-- `PathExt::profit`: last hop's output minus first hop's input. -/
def pathExtProfit (pathExt : List SwapExt) : Except PathError Int :=
  match pathExt.getLast?, pathExt.head? with
  | some lastSwap, some firstSwap =>
    .ok ((lastSwap.amount_out : Int) - (firstSwap.amount_in : Int))
  | _, _ => .error .EmptyPath

/-! ### Optimizers (`examples/arbitrage-bot/context/optimizers.rs`)

The Rust strategies search in `f64`; the model uses exact `ℚ` arithmetic.
The claims settled against this model concern control flow only (which result
constructor is returned, iteration counts, the convergence flag and the
best-so-far tracking), none of which depends on rounding. -/

/-- `OptimizationResult` (`src/path/optimization.rs`). -/
structure OptimizationResult : Type where
  optimal_amount : Nat
  expected_profit : Int
  iterations : Nat
  converged : Bool
  final_tolerance : ℚ
deriving Repr, DecidableEq

/-- `biguint_to_f64` (`value.to_string().parse().unwrap_or(0.0)`), modelled
exactly. -/
def bigUintToQ (value : Nat) : ℚ := (value : ℚ)

/-- `f64_to_biguint`: non-positive values saturate to zero, positive values
truncate (`as u64` also saturates at `u64::MAX`). -/
def qToBigUint (value : ℚ) : Nat :=
  if value ≤ 0 then 0 else min (Int.toNat ⌊value⌋) (2 ^ 64 - 1)

/-- `evaluate_profit`: a failed evaluation counts as zero profit
(`unwrap_or(BigInt::from(0))`). -/
def evaluateProfit (path : Path) (amount : Nat) : Int :=
  match calculateProfitLoss path amount with
  | .ok profit => profit
  | .error _ => 0

/-- The `if profit > best_profit { best_profit = profit; best_amount =
amount; }` update every strategy performs. -/
def updateBest (best : Nat × Int) (amount : Nat) (profit : Int) : Nat × Int :=
  if best.2 < profit then (amount, profit) else best

/-- `TernarySearchOptimizer` configuration. -/
structure TernarySearchOptimizer : Type where
  max_iterations : Nat
  tolerance : ℚ
  min_amount : Nat
  max_amount : Nat

/-- `while` loop of `TernarySearchOptimizer::find_optimal_amount`.  State:
`(left, right, iterations, best_amount, best_profit)`.  The fuel is spent one
unit per executed loop body; `fuel = max_iterations` makes the `0` branch
coincide with the loop guard becoming false. -/
def ternaryLoop (o : TernarySearchOptimizer) (path : Path) :
    Nat → ℚ → ℚ → Nat → Nat → Int → ℚ × ℚ × Nat × Nat × Int
  | 0, left, right, iterations, bestAmount, bestProfit =>
    (left, right, iterations, bestAmount, bestProfit)
  | fuel + 1, left, right, iterations, bestAmount, bestProfit =>
    if iterations < o.max_iterations ∧ o.tolerance < right - left then
      let mid1 := left + (right - left) / 3
      let mid2 := right - (right - left) / 3
      let amount1 := qToBigUint mid1
      let amount2 := qToBigUint mid2
      let profit1 := evaluateProfit path amount1
      let profit2 := evaluateProfit path amount2
      let best₁ := updateBest (bestAmount, bestProfit) amount1 profit1
      let best₂ := updateBest best₁ amount2 profit2
      if profit2 < profit1 then
        ternaryLoop o path fuel left mid2 (iterations + 1) best₂.1 best₂.2
      else
        ternaryLoop o path fuel mid1 right (iterations + 1) best₂.1 best₂.2
    else (left, right, iterations, bestAmount, bestProfit)

/-- `TernarySearchOptimizer::find_optimal_amount`.  The final loop state is
`st = (left, right, iterations, best_amount, best_profit)`, read back through
tuple projections. -/
def ternaryFindOptimalAmount (o : TernarySearchOptimizer) (path : Path) :
    Except PathError OptimizationResult :=
  if path.isEmpty then .error .EmptyPath
  else
    let st :=
      ternaryLoop o path o.max_iterations (bigUintToQ o.min_amount)
        (bigUintToQ o.max_amount) 0 o.min_amount 0
    .ok ⟨st.2.2.2.1, st.2.2.2.2, st.2.2.1,
      decide (st.2.1 - st.1 ≤ o.tolerance), st.2.1 - st.1⟩

/-- `GoldenSectionOptimizer` configuration.  The field `phi` models the
`golden_ratio` constant `(1.0 + 5.0_f64.sqrt()) / 2.0`; `√5` is irrational,
so the `f64` constant is some nearby rational, whose exact value none of the
settled claims depends on. -/
structure GoldenSectionOptimizer : Type where
  max_iterations : Nat
  tolerance : ℚ
  min_amount : Nat
  max_amount : Nat
  phi : ℚ

/-- `while` loop of `GoldenSectionOptimizer::find_optimal_amount`.  State:
`(a, b, c, d, fc, fd, iterations, best_amount, best_profit)`. -/
def goldenLoop (o : GoldenSectionOptimizer) (path : Path) :
    Nat → ℚ → ℚ → ℚ → ℚ → Int → Int → Nat → Nat → Int →
      ℚ × ℚ × Nat × Nat × Int
  | 0, a, b, _, _, _, _, iterations, bestAmount, bestProfit =>
    (a, b, iterations, bestAmount, bestProfit)
  | fuel + 1, a, b, c, d, fc, fd, iterations, bestAmount, bestProfit =>
    if iterations < o.max_iterations ∧ o.tolerance < |b - a| then
      let amountC := qToBigUint c
      let amountD := qToBigUint d
      let best₁ := updateBest (bestAmount, bestProfit) amountC fc
      let best₂ := updateBest best₁ amountD fd
      if fd < fc then
        let b₁ := d
        let d₁ := c
        let fd₁ := fc
        let c₁ := b₁ - (b₁ - a) / o.phi
        let fc₁ := evaluateProfit path (qToBigUint c₁)
        goldenLoop o path fuel a b₁ c₁ d₁ fc₁ fd₁ (iterations + 1) best₂.1 best₂.2
      else
        let a₁ := c
        let c₁ := d
        let fc₁ := fd
        let d₁ := a₁ + (b - a₁) / o.phi
        let fd₁ := evaluateProfit path (qToBigUint d₁)
        goldenLoop o path fuel a₁ b c₁ d₁ fc₁ fd₁ (iterations + 1) best₂.1 best₂.2
    else (a, b, iterations, bestAmount, bestProfit)

/-- `GoldenSectionOptimizer::find_optimal_amount`. -/
def goldenFindOptimalAmount (o : GoldenSectionOptimizer) (path : Path) :
    Except PathError OptimizationResult :=
  if path.isEmpty then .error .EmptyPath
  else
    let a := bigUintToQ o.min_amount
    let b := bigUintToQ o.max_amount
    let c := b - (b - a) / o.phi
    let d := a + (b - a) / o.phi
    let fc := evaluateProfit path (qToBigUint c)
    let fd := evaluateProfit path (qToBigUint d)
    let st := goldenLoop o path o.max_iterations a b c d fc fd 0 o.min_amount 0
    .ok ⟨st.2.2.2.1, st.2.2.2.2, st.2.2.1,
      decide (|st.2.1 - st.1| ≤ o.tolerance), |st.2.1 - st.1|⟩

/-- `GridSearchOptimizer` configuration. -/
structure GridSearchOptimizer : Type where
  grid_points : Nat
  min_amount : Nat
  max_amount : Nat

/-- `GridSearchOptimizer::find_optimal_amount`.  The step divisor
`grid_points - 1` is the Rust `usize` subtraction; `ℚ` division by zero is
zero here where the `f64` quotient would be infinite, which only changes the
amounts evaluated, not the shape of the result. -/
def gridFindOptimalAmount (o : GridSearchOptimizer) (path : Path) :
    Except PathError OptimizationResult :=
  if path.isEmpty then .error .EmptyPath
  else
    let minQ := bigUintToQ o.min_amount
    let maxQ := bigUintToQ o.max_amount
    let step := (maxQ - minQ) / ((o.grid_points - 1 : Nat) : ℚ)
    let best :=
      (List.range o.grid_points).foldl
        (fun (best : Nat × Int) (i : Nat) =>
          let amount := qToBigUint (minQ + (i : ℚ) * step)
          let profit := evaluateProfit path amount
          updateBest best amount profit)
        (o.min_amount, (0 : Int))
    .ok ⟨best.1, best.2, o.grid_points, true, 0⟩

/-! ### Predicates and fixtures used to state the claims -/

/-- Hop condition of a pool-path realization: at hop `j` of token path `tp`
(the last hop wrapping back to the front), `poolId` is one of the pools the
graph lists between the consecutive token pair. -/
def hopOk (g : TradingGraph) (tp : List Nat) (j poolId : Nat) : Bool :=
  match poolsBetweenTokens g (tp.getD j 0, tp.getD ((j + 1) % tp.length) 0) with
  | .ok pools => pools.contains poolId
  | .error _ => false

/-- No two pools of the path share an address, in the precise sense checked
by `should_use_pool_in_path` (indices failing to resolve never clash). -/
def noAddrClash (g : TradingGraph) : List Nat → Bool
  | [] => true
  | x :: rest =>
    rest.all (fun y => !poolAddrClash g x y) && noAddrClash g rest

/-- `pp` realizes the cycle of token path `tp`: one pool per hop, each pool
connecting the corresponding consecutive token pair, no repeated pool
address. -/
def realizes (g : TradingGraph) (tp pp : List Nat) : Prop :=
  pp.length = tp.length ∧
    (∀ j, j < pp.length → hopOk g tp j (pp.getD j 0) = true) ∧
    noAddrClash g pp = true

instance (g : TradingGraph) (tp pp : List Nat) : Decidable (realizes g tp pp) :=
  inferInstanceAs (Decidable (pp.length = tp.length ∧
    (∀ j, j < pp.length → hopOk g tp j (pp.getD j 0) = true) ∧
    noAddrClash g pp = true))

/-- Partial realization: a prefix of a realization (used for the discovery
loop invariant). -/
def partialRealizes (g : TradingGraph) (tp pp : List Nat) : Prop :=
  pp.length ≤ tp.length ∧
    (∀ j, j < pp.length → hopOk g tp j (pp.getD j 0) = true) ∧
    noAddrClash g pp = true

/-- The token-to-path inverted index only stores indices into `token_paths`. -/
def tokenIndexConsistent (repo : PathRepository) : Prop :=
  ∀ a l, alistLookup a repo.token_to_path_indices = some l →
    ∀ i ∈ l, i < repo.token_paths.length

/-- Properties promised of every stored token path: length between 2 and the
maximum, first entry a resolved source index, no repeats, no source after the
first entry, and a last token adjacent to some source. -/
def goodTokenPath (g : TradingGraph) (sources : List Nat) (maxLen : Nat)
    (tp : List Nat) : Prop :=
  2 ≤ tp.length ∧ tp.length ≤ maxLen ∧
    (∃ s, tp.head? = some s ∧ s ∈ sources) ∧
    tp.Nodup ∧
    (∀ x ∈ tp.tail, x ∉ sources) ∧
    (∃ lastTok ns, tp.getLast? = some lastTok ∧
      tokenNeighbors g lastTok = .ok ns ∧ ∃ n ∈ ns, n ∈ sources)

/-- How one `discover_paths` phase extends a repository: configuration fields
kept, token-path index kept consistent, token paths extended only by good
paths, pool paths extended only by realizations of stored token paths. -/
def DiscExt (g : TradingGraph) (sources : List Nat) (maxLen : Nat)
    (r r' : PathRepository) : Prop :=
  r'.source_tokens = r.source_tokens ∧
  r'.maximum_path_length = r.maximum_path_length ∧
  (tokenIndexConsistent r → tokenIndexConsistent r') ∧
  (∃ suf, r'.token_paths = r.token_paths ++ suf ∧
    ∀ tp ∈ suf, goodTokenPath g sources maxLen tp) ∧
  (tokenIndexConsistent r →
    ∃ suf, r'.pool_paths = r.pool_paths ++ suf ∧
      ∀ pp ∈ suf, ∃ tp, tp ∈ r'.token_paths ∧ realizes g tp pp)

/-- How the pool-path DFS for one fixed token path extends a repository:
everything except the pool side kept, pool paths extended only by
realizations of that token path. -/
def PoolExt (g : TradingGraph) (tp : List Nat) (r r' : PathRepository) : Prop :=
  r'.source_tokens = r.source_tokens ∧
  r'.maximum_path_length = r.maximum_path_length ∧
  r'.token_paths = r.token_paths ∧
  r'.token_to_path_indices = r.token_to_path_indices ∧
  ∃ suf, r'.pool_paths = r.pool_paths ++ suf ∧ ∀ pp ∈ suf, realizes g tp pp

/-- How the whole pool-path phase extends a repository: pool paths extended
only by realizations of stored token paths. -/
def PoolPhaseExt (g : TradingGraph) (r r' : PathRepository) : Prop :=
  r'.source_tokens = r.source_tokens ∧
  r'.maximum_path_length = r.maximum_path_length ∧
  r'.token_paths = r.token_paths ∧
  r'.token_to_path_indices = r.token_to_path_indices ∧
  ∃ suf, r'.pool_paths = r.pool_paths ++ suf ∧
    ∀ pp ∈ suf, ∃ tp, tp ∈ r.token_paths ∧ realizes g tp pp

/-- Repository states reachable from a fresh repository by `discover_paths`
calls against a fixed graph. -/
inductive Reachable (g : TradingGraph) : PathRepository → Prop
  | base (sourceTokens : List Nat) (maximumPathLength : Nat) :
      Reachable g (PathRepository.new sourceTokens maximumPathLength)
  | step (repo : PathRepository) (a b c d : Nat) :
      Reachable g repo → Reachable g (discoverPaths repo g a b c d)

/-- The executed hops chain the threaded amount: the first hop consumes the
initial amount, each hop's output feeds the next, the last hop's output is the
final amount. -/
def extsOk (cur finalAmount : Nat) : List SwapExt → Prop
  | [] => finalAmount = cur
  | e :: rest => e.amount_in = cur ∧ extsOk e.amount_out finalAmount rest

/-- Counterexample fixture: two tokens (addresses 10, 11) joined by two pools
(addresses 100, 101), built through the public constructors. -/
def cexGraph : TradingGraph :=
  let s₁ := addToken TradingGraph.new 10
  let s₂ := addToken s₁.1 11
  let s₃ := addPool s₂.1 100 (0, 1)
  let s₄ := addPool s₃.1 101 (0, 1)
  s₄.1

/-- Counterexample fixture: repository over source token 10 with maximum path
length 2, after one discovery pass over the whole of `cexGraph`. -/
def cexRepo₁ : PathRepository :=
  discoverPaths (PathRepository.new [10] 2) cexGraph 0 2 0 4

/-- The same discovery pass a second time, with the same deltas. -/
def cexRepo₂ : PathRepository :=
  discoverPaths cexRepo₁ cexGraph 0 2 0 4

/-- Fixture for `remove_token`: two tokens (addresses 10, 11) joined by one
pool (address 100). -/
def cexGraphB : TradingGraph :=
  let s₁ := addToken TradingGraph.new 10
  let s₂ := addToken s₁.1 11
  let s₃ := addPool s₂.1 100 (0, 1)
  s₃.1

/-- Fixture hop whose pool reports a zero input limit but swaps fine: the
injected capability answers `get_limits = (0, 0)` and echoes the amount. -/
def limitZeroSwap : Swap :=
  ⟨.ok (0, 0), fun a => .ok ⟨a, 7⟩⟩

/-- Fixture hop that always outputs zero (a pure-loss hop) and accepts
nothing beyond zero input. -/
def lossSwap : Swap :=
  ⟨.ok (0, 0), fun _ => .ok ⟨0, 0⟩⟩

/-- Fixture hop with roomy limits that echoes the amount. -/
def okSwap : Swap :=
  ⟨.ok (10, 10), fun a => .ok ⟨a, 3⟩⟩

/-! ## Theorems -/

/-! ### Generic fold lemmas -/

/-- Folding a step that respects a reflexive transitive relation relates the
initial accumulator to the result. -/
theorem foldl_rel {α β : Type} (R : β → β → Prop) (hrefl : ∀ b, R b b)
    (htrans : ∀ b₁ b₂ b₃, R b₁ b₂ → R b₂ b₃ → R b₁ b₃)
    (f : β → α → β) (l : List α) (init : β)
    (hstep : ∀ b x, x ∈ l → R b (f b x)) :
    R init (l.foldl f init) := by
  induction l generalizing init with
  | nil => exact hrefl init
  | cons x xs ih =>
    exact htrans _ _ _ (hstep init x (by simp))
      (ih (f init x) (fun b y hy => hstep b y (by simp [hy])))

/-- A fold whose steps do nothing is the identity. -/
theorem foldl_id {α β : Type} (f : β → α → β) (l : List α) (init : β)
    (h : ∀ b x, x ∈ l → f b x = b) : l.foldl f init = init := by
  induction l generalizing init with
  | nil => rfl
  | cons x xs ih =>
    rw [List.foldl_cons, h init x (by simp)]
    exact ih init (fun b y hy => h b y (by simp [hy]))

/-! ### Claim C2: `execute_with_amount` versus `calculate_profit_loss` -/

/-- When the limit-checked loop succeeds, the materializing loop succeeds with
the same final amount and a chained hop list of the same length. -/
theorem cplLoop_ewaLoop : ∀ (swaps : List Swap) (cur finalAmount : Nat),
    cplLoop swaps cur = .ok finalAmount →
    ∃ exts, ewaLoop swaps cur = .ok (finalAmount, exts) ∧
      extsOk cur finalAmount exts ∧ exts.length = swaps.length := by
  intro swaps
  induction swaps with
  | nil =>
    intro cur finalAmount h
    simp only [cplLoop, Except.ok.injEq] at h
    exact ⟨[], by simp [ewaLoop, h], by simp [extsOk, h], rfl⟩
  | cons s rest ih =>
    intro cur finalAmount h
    rcases hl : s.get_limits with e | lim
    · rw [cplLoop, hl] at h
      exact absurd h (by simp)
    · obtain ⟨maxIn, maxOut⟩ := lim
      rw [cplLoop, hl] at h
      simp only at h
      split at h
      · exact absurd h (by simp)
      · rcases ha : s.get_amount_out cur with e | res
        · rw [ha] at h
          exact absurd h (by simp)
        · rw [ha] at h
          simp only at h
          split at h
          · exact absurd h (by simp)
          · obtain ⟨exts, hewa, hok, hlen⟩ := ih res.amount finalAmount h
            exact ⟨⟨cur, res.amount, res.gas⟩ :: exts,
              by simp [ewaLoop, ha, hewa],
              ⟨rfl, hok⟩,
              by simp [hlen]⟩

/-- A nonempty chained hop list ends with the final amount. -/
theorem extsOk_getLast : ∀ (exts : List SwapExt) (cur finalAmount : Nat),
    extsOk cur finalAmount exts → exts ≠ [] →
    ∃ l, exts.getLast? = some l ∧ l.amount_out = finalAmount := by
  intro exts
  induction exts with
  | nil => intro _ _ _ hne; exact absurd rfl hne
  | cons e rest ih =>
    intro cur finalAmount hok _
    obtain ⟨hin, hrest⟩ := hok
    cases rest with
    | nil =>
      simp only [extsOk] at hrest
      exact ⟨e, by simp, hrest.symm⟩
    | cons r rs =>
      obtain ⟨l, hl, ho⟩ := ih e.amount_out finalAmount hrest (by simp)
      exact ⟨l, by rw [List.getLast?_cons_cons]; exact hl, ho⟩

/-- Profit of a chained hop list is final minus initial amount. -/
theorem extsOk_profit (exts : List SwapExt) (cur finalAmount : Nat)
    (hok : extsOk cur finalAmount exts) (hne : exts ≠ []) :
    pathExtProfit exts = .ok ((finalAmount : Int) - (cur : Int)) := by
  cases exts with
  | nil => exact absurd rfl hne
  | cons e rest =>
    obtain ⟨l, hl, ho⟩ := extsOk_getLast (e :: rest) cur finalAmount hok hne
    obtain ⟨hin, _⟩ := hok
    simp [pathExtProfit, hl, ho, hin]

/-- Claim C2, corrected: whenever `calculate_profit_loss` succeeds,
`execute_with_amount` succeeds too and the profit of the resulting `PathExt`
(last hop's output minus first hop's input) equals the returned signed value.
The converse direction fails because `execute_with_amount` performs no limit
checks (see the counterexample). -/
theorem claimC2_amended (path : Path) (amountIn : Nat) (p : Int)
    (h : calculateProfitLoss path amountIn = .ok p) :
    ∃ exts, executeWithAmount path amountIn = .ok exts ∧
      pathExtProfit exts = .ok p := by
  unfold calculateProfitLoss at h
  split at h
  · exact absurd h (by simp)
  · rename_i hemp
    rcases hc : cplLoop path amountIn with e | finalAmount
    · rw [hc] at h
      exact absurd h (by simp)
    · rw [hc] at h
      simp only [Except.ok.injEq] at h
      obtain ⟨exts, hewa, hok, hlen⟩ := cplLoop_ewaLoop path amountIn finalAmount hc
      have hne : exts ≠ [] := by
        intro hnil
        rw [hnil] at hlen
        cases path with
        | nil => exact hemp rfl
        | cons _ _ => exact absurd hlen.symm (by simp)
      refine ⟨exts, ?_, ?_⟩
      · unfold executeWithAmount
        split
        · exact absurd (by assumption) hemp
        · rw [hewa]
      · rw [extsOk_profit exts amountIn finalAmount hok hne, h]

/-- Claim C2, counterexample to the claim as stated: on a one-hop path whose
pool declares a zero input limit but swaps normally, `calculate_profit_loss`
fails with the amount-exceeds-limits error while `execute_with_amount`
succeeds, so the two traversals do not fail together. -/
theorem claimC2_counterexample :
    calculateProfitLoss [limitZeroSwap] 5 = .error (.AmountExceedsLimits 5 0) ∧
    executeWithAmount [limitZeroSwap] 5 = .ok [⟨5, 5, 7⟩] :=
  ⟨by decide, by decide⟩

/-- Claim C2, witness: the amended theorem applied to a concrete one-hop
path. -/
theorem claimC2_amended_witness :
    ∃ exts, executeWithAmount [okSwap] 5 = .ok exts ∧ pathExtProfit exts = .ok 0 :=
  claimC2_amended [okSwap] 5 0 (by decide)

/-! ### Claim C3: `remove_token` leaves reverse-direction pool entries -/

/-- Claim C3, code bug: removing token 0 from a two-token graph with one pool
succeeds but leaves the reverse directed entry `(100, [1, 0])` in the pools
array and the pair `(1, 0)` in the pair-to-pool index, although both its
endpoints referred to slots affected by the removal; the cascade only covers
the `[token, neighbor]` direction.  The invalid-index branch does error. -/
theorem claimC3_code_bug :
    removeToken cexGraphB 0 =
      .ok ⟨[⟨11, []⟩], [⟨100, (1, 0)⟩], [(11, 0)], [((1, 0), [0])]⟩ ∧
    removeToken cexGraphB 5 = .error (.InvalidNodeIndex 5) :=
  ⟨by decide, by decide⟩

/-! ### Claim C7: `add_pool` with an out-of-range endpoint -/

/-- Claim C7: adding a pool with an out-of-range endpoint fails with the
non-existent-node error naming the first offending id and returns the graph
unchanged. -/
theorem claimC7_addPool_invalid (g : TradingGraph) (address a b : Nat)
    (h : g.tokens.length ≤ a ∨ g.tokens.length ≤ b) :
    addPool g address (a, b) =
      (g, .error (.NonExistentNode (if g.tokens.length ≤ a then a else b))) := by
  by_cases ha : g.tokens.length ≤ a
  · simp [addPool, ha]
  · have hb : g.tokens.length ≤ b := h.resolve_left ha
    simp [addPool, ha, hb]

/-- Claim C7, witness: a concrete out-of-range insertion. -/
theorem claimC7_witness :
    addPool cexGraph 7 (5, 0) = (cexGraph, .error (.NonExistentNode 5)) := by
  rw [claimC7_addPool_invalid cexGraph 7 5 0 (Or.inl (by decide))]
  decide

/-! ### Claims C1 and C5: counterexamples -/

/-- Claim C1, counterexample: re-running `discover_paths` with the same graph
and the same deltas appends duplicate token paths and duplicate pool paths. -/
theorem claimC1_counterexample :
    cexRepo₁.token_paths = [[0, 1]] ∧ cexRepo₁.pool_paths = [[0, 3], [2, 1]] ∧
    cexRepo₂.token_paths = [[0, 1], [0, 1]] ∧ cexRepo₂.pool_paths.length = 6 :=
  ⟨by decide, by decide, by decide, by decide⟩

/-- Claim C5, counterexample: on a repository that knows no pools, the
singular lookup fails but the plural lookup succeeds with the empty union,
so the plural form does not fail even when every queried pool is unknown. -/
theorem claimC5_counterexample :
    getPathIndicesForPool (PathRepository.new [] 3) 5 =
      .error (.PoolNotFoundInRepository 5) ∧
    getPathIndicesForPools (PathRepository.new [] 3) [5] = .ok [] :=
  ⟨by decide, by decide⟩

/-- The token DFS returns immediately when the current endpoint is not a
valid token of the graph. -/
theorem dtpr_stuck (g : TradingGraph) (sources : List Nat)
    (off target fuel : Nat) (currentPath : List Nat) (repo : PathRepository)
    (t : Nat) (hlast : currentPath.getLast? = some t)
    (hge : g.tokens.length ≤ t) :
    discoverTokenPathsRecursive g sources off target fuel currentPath repo =
      repo := by
  cases fuel with
  | zero => rfl
  | succ fuel => simp [discoverTokenPathsRecursive, hlast, tokenNeighbors, hge]

/-- With a token offset at or beyond the token count, the token DFS from a
single-element path stores nothing. -/
theorem dtpr_offset_big (g : TradingGraph) (sources : List Nat)
    (off target : Nat) (hoff : g.tokens.length ≤ off) (htgt : 2 ≤ target) :
    ∀ (fuel s : Nat) (repo : PathRepository),
      discoverTokenPathsRecursive g sources off target fuel [s] repo = repo := by
  intro fuel s repo
  cases fuel with
  | zero => rfl
  | succ fuel =>
    rcases hn : tokenNeighbors g s with e | ns
    · simp [discoverTokenPathsRecursive, hn]
    · have hne : ¬(target = [s].length) := by simp; omega
      simp only [discoverTokenPathsRecursive, List.getLast?_singleton, hn,
        if_neg hne]
      apply foldl_id
      intro b x hx
      split
      · rename_i hexp
        have hxoff : off ≤ x := by
          simp only [shouldExploreTokenNeighbor, Bool.and_eq_true,
            decide_eq_true_eq] at hexp
          exact hexp.1.1
        exact dtpr_stuck g sources off target fuel ([s] ++ [x]) b x
          (List.getLast?_concat _) (le_trans hoff hxoff)
      · rfl

/-- With a token offset at or beyond the token count, token-path discovery is
the identity. -/
theorem discoverTokenPaths_offset_big (g : TradingGraph) (sources : List Nat)
    (off : Nat) (repo : PathRepository) (hoff : g.tokens.length ≤ off) :
    discoverTokenPaths g sources off repo = repo := by
  unfold discoverTokenPaths
  apply foldl_id
  intro b x hx
  apply foldl_id
  intro b₁ s _
  have hx2 : 2 ≤ x := (List.mem_range'_1.mp hx).1
  exact dtpr_offset_big g sources off x hoff hx2 x s b₁

/-- With a zero new-pool count, pool-path discovery is the identity. -/
theorem discoverPoolPathsFromUpdates_zero (g : TradingGraph) (po : Nat)
    (repo : PathRepository) :
    discoverPoolPathsFromUpdates g po 0 repo = repo := by
  simp [discoverPoolPathsFromUpdates, findTokensAffectedByNewPools,
    findRelevantTokenPaths, sortDedup, sortNat, dedupAdj]

/-- Claim C1, corrected: `discover_paths` is idempotent only for empty deltas.
When the delta says no new tokens (offset at or beyond the token count) and no
new pools (zero count), a call leaves the repository completely unchanged;
re-passing the same non-empty deltas instead appends duplicates (see the
counterexample). -/
theorem claimC1_amended (repo : PathRepository) (g : TradingGraph)
    (off tc po : Nat) (hoff : g.tokens.length ≤ off) :
    discoverPaths repo g off tc po 0 = repo := by
  show discoverPoolPathsFromUpdates g po 0
      (discoverTokenPaths g (resolveSourceTokenIndices repo g) off repo) = repo
  rw [discoverTokenPaths_offset_big g _ off repo hoff,
    discoverPoolPathsFromUpdates_zero]

/-- Claim C1, witness: an empty-delta call on the discovered fixture is the
identity. -/
theorem claimC1_amended_witness :
    discoverPaths cexRepo₁ cexGraph 2 0 4 0 = cexRepo₁ :=
  claimC1_amended cexRepo₁ cexGraph 2 0 4 (by decide)

/-! ### Claim C5: lookup operations -/

theorem mem_sortedInsert (x y : Nat) (l : List Nat) :
    y ∈ sortedInsert x l ↔ y = x ∨ y ∈ l := by
  induction l with
  | nil => simp [sortedInsert]
  | cons z zs ih =>
    by_cases h : x ≤ z
    · simp [sortedInsert, h]
    · simp [sortedInsert, h, ih]
      tauto

theorem sorted_sortedInsert (x : Nat) (l : List Nat) (hs : l.Sorted (· ≤ ·)) :
    (sortedInsert x l).Sorted (· ≤ ·) := by
  induction l with
  | nil => simp [sortedInsert]
  | cons z zs ih =>
    rw [List.sorted_cons] at hs
    by_cases h : x ≤ z
    · rw [sortedInsert, if_pos h, List.sorted_cons]
      refine ⟨?_, List.sorted_cons.mpr hs⟩
      intro b hb
      rcases List.mem_cons.mp hb with rfl | hb₁
      · exact h
      · exact le_trans h (hs.1 b hb₁)
    · rw [sortedInsert, if_neg h, List.sorted_cons]
      refine ⟨?_, ih hs.2⟩
      intro b hb
      rcases (mem_sortedInsert x b zs).mp hb with rfl | hb₁
      · omega
      · exact hs.1 b hb₁

theorem sorted_sortNat (l : List Nat) : (sortNat l).Sorted (· ≤ ·) := by
  induction l with
  | nil => simp [sortNat]
  | cons x xs ih => exact sorted_sortedInsert x _ ih

theorem mem_sortNat (y : Nat) (l : List Nat) : y ∈ sortNat l ↔ y ∈ l := by
  induction l with
  | nil => simp [sortNat]
  | cons x xs ih => simp [sortNat, mem_sortedInsert, ih]

theorem mem_dedupAdj (y : Nat) : ∀ l : List Nat, y ∈ dedupAdj l ↔ y ∈ l := by
  intro l
  induction l with
  | nil => simp [dedupAdj]
  | cons x xs ih =>
    cases xs with
    | nil => simp [dedupAdj]
    | cons z zs =>
      by_cases h : x = z
      · subst h
        rw [dedupAdj, if_pos rfl, ih]
        simp
      · rw [dedupAdj, if_neg h]
        simp [ih]

theorem sorted_nodup_dedupAdj : ∀ l : List Nat, l.Sorted (· ≤ ·) →
    (dedupAdj l).Sorted (· ≤ ·) ∧ (dedupAdj l).Nodup := by
  intro l
  induction l with
  | nil => intro _; simp [dedupAdj]
  | cons x xs ih =>
    intro hs
    rw [List.sorted_cons] at hs
    cases xs with
    | nil => simp [dedupAdj]
    | cons z zs =>
      have ihz := ih hs.2
      by_cases h : x = z
      · rw [dedupAdj, if_pos h]
        exact ihz
      · rw [dedupAdj, if_neg h]
        constructor
        · rw [List.sorted_cons]
          refine ⟨?_, ihz.1⟩
          intro b hb
          exact hs.1 b ((mem_dedupAdj b (z :: zs)).mp hb)
        · rw [List.nodup_cons]
          refine ⟨?_, ihz.2⟩
          intro hmem
          rcases List.mem_cons.mp ((mem_dedupAdj x (z :: zs)).mp hmem) with
            rfl | hx
          · exact h rfl
          · have hxz : x ≤ z := hs.1 z (by simp)
            have hzx : z ≤ x := (List.sorted_cons.mp hs.2).1 x hx
            exact h (le_antisymm hxz hzx)

theorem sortDedup_sorted (l : List Nat) : (sortDedup l).Sorted (· ≤ ·) :=
  (sorted_nodup_dedupAdj _ (sorted_sortNat l)).1

theorem sortDedup_nodup (l : List Nat) : (sortDedup l).Nodup :=
  (sorted_nodup_dedupAdj _ (sorted_sortNat l)).2

theorem mem_sortDedup (y : Nat) (l : List Nat) : y ∈ sortDedup l ↔ y ∈ l := by
  rw [sortDedup, mem_dedupAdj, mem_sortNat]

/-- Membership in the concatenating fold of the plural lookup. -/
theorem mem_collect_pools (repo : PathRepository) :
    ∀ (addrs init : List Nat) (i : Nat),
      (i ∈ addrs.foldl
        (fun acc poolAddress =>
          match getPathIndicesForPool repo poolAddress with
          | .ok indices => acc ++ indices
          | .error _ => acc)
        init) ↔
      i ∈ init ∨ ∃ b ∈ addrs, ∃ li,
        getPathIndicesForPool repo b = .ok li ∧ i ∈ li := by
  intro addrs
  induction addrs with
  | nil => simp
  | cons a rest ih =>
    intro init i
    rw [List.foldl_cons]
    rcases hb : getPathIndicesForPool repo a with e | li
    · simp only [hb]
      rw [ih init i]
      constructor
      · rintro (h | ⟨b, hbm, lj, hok, hi⟩)
        · exact Or.inl h
        · exact Or.inr ⟨b, by simp [hbm], lj, hok, hi⟩
      · rintro (h | ⟨b, hbm, lj, hok, hi⟩)
        · exact Or.inl h
        · rcases List.mem_cons.mp hbm with rfl | hbm₁
          · rw [hb] at hok
            exact absurd hok (by simp)
          · exact Or.inr ⟨b, hbm₁, lj, hok, hi⟩
    · simp only [hb]
      rw [ih (init ++ li) i]
      simp only [List.mem_append]
      constructor
      · rintro ((h | h) | ⟨b, hbm, lj, hok, hi⟩)
        · exact Or.inl h
        · exact Or.inr ⟨a, by simp, li, hb, h⟩
        · exact Or.inr ⟨b, by simp [hbm], lj, hok, hi⟩
      · rintro (h | ⟨b, hbm, lj, hok, hi⟩)
        · exact Or.inl (Or.inl h)
        · rcases List.mem_cons.mp hbm with rfl | hbm₁
          · rw [hb] at hok
            have : li = lj := by simpa using hok
            exact Or.inl (Or.inr (this ▸ hi))
          · exact Or.inr ⟨b, hbm₁, lj, hok, hi⟩

/-- Claim C5, corrected: the singular lookup fails exactly on addresses the
pool index does not know, but the plural lookup never fails — it skips
unknown pools and returns the sorted, deduplicated union of the index lists
of the known queried pools (empty when every queried pool is unknown). -/
theorem claimC5_amended (repo : PathRepository) (a : Nat) (addrs : List Nat) :
    (alistLookup a repo.pool_to_path_indices = none →
      getPathIndicesForPool repo a = .error (.PoolNotFoundInRepository a)) ∧
    ∃ l, getPathIndicesForPools repo addrs = .ok l ∧
      l.Sorted (· ≤ ·) ∧ l.Nodup ∧
      ∀ i, i ∈ l ↔ ∃ b ∈ addrs, ∃ li,
        getPathIndicesForPool repo b = .ok li ∧ i ∈ li := by
  constructor
  · intro hnone
    simp [getPathIndicesForPool, hnone]
  · refine ⟨_, rfl, sortDedup_sorted _, sortDedup_nodup _, ?_⟩
    intro i
    rw [mem_sortDedup, mem_collect_pools]
    simp

/-- Claim C5, witness: the amended theorem applied to a fresh repository and
a single unknown pool address. -/
theorem claimC5_amended_witness :
    getPathIndicesForPool (PathRepository.new [] 3) 5 =
      .error (.PoolNotFoundInRepository 5) ∧
    ∃ l, getPathIndicesForPools (PathRepository.new [] 3) [5] = .ok l ∧
      l.Sorted (· ≤ ·) ∧ l.Nodup ∧
      ∀ i, i ∈ l ↔ ∃ b ∈ [5], ∃ li,
        getPathIndicesForPool (PathRepository.new [] 3) b = .ok li ∧ i ∈ li :=
  ⟨(claimC5_amended (PathRepository.new [] 3) 5 [5]).1 (by decide),
    (claimC5_amended (PathRepository.new [] 3) 5 [5]).2⟩

/-! ### Claim C6: optimizer error handling and grid-search convergence -/

/-- Claim C6: each of the three strategies returns `Ok` on every non-empty
path (a failed profit evaluation is absorbed as zero profit, never
propagated), each returns the empty-path error on the empty path, and the
grid search always reports `converged = true` with an iteration count equal
to its configured number of grid points. -/
theorem claimC6_optimizers (ot : TernarySearchOptimizer)
    (og : GoldenSectionOptimizer) (ogr : GridSearchOptimizer) (path : Path) :
    (path ≠ [] →
      (∃ r, ternaryFindOptimalAmount ot path = .ok r) ∧
      (∃ r, goldenFindOptimalAmount og path = .ok r) ∧
      ∃ r, gridFindOptimalAmount ogr path = .ok r ∧
        r.converged = true ∧ r.iterations = ogr.grid_points) ∧
    (path = [] →
      ternaryFindOptimalAmount ot path = .error .EmptyPath ∧
      goldenFindOptimalAmount og path = .error .EmptyPath ∧
      gridFindOptimalAmount ogr path = .error .EmptyPath) := by
  constructor
  · intro hne
    have hemp : ¬(path.isEmpty = true) := by
      simpa [List.isEmpty_iff] using hne
    refine ⟨?_, ?_, ?_⟩
    · rw [ternaryFindOptimalAmount, if_neg hemp]
      exact ⟨_, rfl⟩
    · rw [goldenFindOptimalAmount, if_neg hemp]
      exact ⟨_, rfl⟩
    · rw [gridFindOptimalAmount, if_neg hemp]
      exact ⟨_, rfl, rfl, rfl⟩
  · intro h
    subst h
    exact ⟨rfl, rfl, rfl⟩

/-- Claim C6, witness: concrete configurations on a one-hop path and on the
empty path. -/
theorem claimC6_witness :
    (∃ r, gridFindOptimalAmount ⟨3, 1, 10⟩ [lossSwap] = .ok r ∧
      r.converged = true ∧ r.iterations = 3) ∧
    ternaryFindOptimalAmount ⟨2, 1, 1, 10⟩ [] = .error .EmptyPath :=
  ⟨((claimC6_optimizers ⟨2, 1, 1, 10⟩ ⟨2, 1, 1, 10, 2⟩ ⟨3, 1, 10⟩
      [lossSwap]).1 (by simp)).2.2,
   ((claimC6_optimizers ⟨2, 1, 1, 10⟩ ⟨2, 1, 1, 10, 2⟩ ⟨3, 1, 10⟩ []).2
      rfl).1⟩

/-! ### Claim C9: optimizers never report a loss -/

theorem updateBest_nonneg (b : Nat × Int) (amount : Nat) (profit : Int)
    (h : 0 ≤ b.2) : 0 ≤ (updateBest b amount profit).2 := by
  rw [updateBest]
  split_ifs with hc
  · show 0 ≤ profit
    omega
  · exact h

theorem updateBest_id (b : Nat × Int) (amount : Nat) (profit : Int)
    (h : profit ≤ b.2) : updateBest b amount profit = b := by
  rw [updateBest, if_neg (not_lt.mpr h)]

/-- Folding a step that preserves a predicate preserves it. -/
theorem foldl_preserve {α β : Type} (P : β → Prop) (f : β → α → β)
    (hstep : ∀ b x, P b → P (f b x)) :
    ∀ (l : List α) (init : β), P init → P (l.foldl f init) := by
  intro l
  induction l with
  | nil => intro init h; exact h
  | cons x xs ih => intro init h; exact ih (f init x) (hstep init x h)

/-- The ternary loop keeps its best profit non-negative. -/
theorem ternaryLoop_nonneg (o : TernarySearchOptimizer) (path : Path) :
    ∀ (fuel : Nat) (l r : ℚ) (it ba : Nat) (bp : Int), 0 ≤ bp →
      0 ≤ (ternaryLoop o path fuel l r it ba bp).2.2.2.2 := by
  intro fuel
  induction fuel with
  | zero =>
    intro l r it ba bp hbp
    simpa [ternaryLoop] using hbp
  | succ fuel ih =>
    intro l r it ba bp hbp
    rw [ternaryLoop]
    split
    · dsimp only
      split
      · exact ih _ _ _ _ _ (updateBest_nonneg _ _ _ (updateBest_nonneg _ _ _ hbp))
      · exact ih _ _ _ _ _ (updateBest_nonneg _ _ _ (updateBest_nonneg _ _ _ hbp))
    · simpa using hbp

/-- When every evaluation is non-positive, the ternary loop never moves its
best point off the initial one. -/
theorem ternaryLoop_alllose (o : TernarySearchOptimizer) (path : Path)
    (hle : ∀ amt, evaluateProfit path amt ≤ 0) :
    ∀ (fuel : Nat) (l r : ℚ) (it ba : Nat),
      ∃ l₁ r₁ it₁,
        ternaryLoop o path fuel l r it ba 0 = (l₁, r₁, it₁, ba, 0) := by
  intro fuel
  induction fuel with
  | zero =>
    intro l r it ba
    exact ⟨l, r, it, rfl⟩
  | succ fuel ih =>
    intro l r it ba
    rw [ternaryLoop]
    split
    · dsimp only
      rw [updateBest_id (ba, (0 : Int)) _ _ (hle _),
        updateBest_id (ba, (0 : Int)) _ _ (hle _)]
      split
      · exact ih _ _ _ _
      · exact ih _ _ _ _
    · exact ⟨l, r, it, rfl⟩

/-- The golden-section loop keeps its best profit non-negative. -/
theorem goldenLoop_nonneg (o : GoldenSectionOptimizer) (path : Path) :
    ∀ (fuel : Nat) (a b c d : ℚ) (fc fd : Int) (it ba : Nat) (bp : Int),
      0 ≤ bp →
      0 ≤ (goldenLoop o path fuel a b c d fc fd it ba bp).2.2.2.2 := by
  intro fuel
  induction fuel with
  | zero =>
    intro a b c d fc fd it ba bp hbp
    simpa [goldenLoop] using hbp
  | succ fuel ih =>
    intro a b c d fc fd it ba bp hbp
    rw [goldenLoop]
    split
    · dsimp only
      split
      · exact ih _ _ _ _ _ _ _ _ _ (updateBest_nonneg _ _ _ (updateBest_nonneg _ _ _ hbp))
      · exact ih _ _ _ _ _ _ _ _ _ (updateBest_nonneg _ _ _ (updateBest_nonneg _ _ _ hbp))
    · simpa using hbp

/-- When every evaluation is non-positive, the golden-section loop never
moves its best point off the initial one. -/
theorem goldenLoop_alllose (o : GoldenSectionOptimizer) (path : Path)
    (hle : ∀ amt, evaluateProfit path amt ≤ 0) :
    ∀ (fuel : Nat) (a b c d : ℚ) (fc fd : Int) (it ba : Nat),
      fc ≤ 0 → fd ≤ 0 →
      ∃ a₁ b₁ it₁, goldenLoop o path fuel a b c d fc fd it ba 0 =
        (a₁, b₁, it₁, ba, 0) := by
  intro fuel
  induction fuel with
  | zero =>
    intro a b c d fc fd it ba _ _
    exact ⟨a, b, it, rfl⟩
  | succ fuel ih =>
    intro a b c d fc fd it ba hfc hfd
    rw [goldenLoop]
    split
    · dsimp only
      rw [updateBest_id (ba, (0 : Int)) _ _ hfc,
        updateBest_id (ba, (0 : Int)) _ _ hfd]
      split
      · exact ih _ _ _ _ _ _ _ _ (hle _) hfc
      · exact ih _ _ _ _ _ _ _ _ hfd (hle _)
    · exact ⟨a, b, it, rfl⟩

/-- Claim C9: every result any of the three strategies returns carries a
non-negative expected profit, and on a path whose profit evaluation is
non-positive at every amount the returned optimum is the configured minimum
amount with expected profit exactly zero — a loss is never reported. -/
theorem claimC9_no_loss_reported (ot : TernarySearchOptimizer)
    (og : GoldenSectionOptimizer) (ogr : GridSearchOptimizer) (path : Path) :
    (∀ r, ternaryFindOptimalAmount ot path = .ok r → 0 ≤ r.expected_profit) ∧
    (∀ r, goldenFindOptimalAmount og path = .ok r → 0 ≤ r.expected_profit) ∧
    (∀ r, gridFindOptimalAmount ogr path = .ok r → 0 ≤ r.expected_profit) ∧
    ((∀ amt, evaluateProfit path amt ≤ 0) →
      (∀ r, ternaryFindOptimalAmount ot path = .ok r →
        r.optimal_amount = ot.min_amount ∧ r.expected_profit = 0) ∧
      (∀ r, goldenFindOptimalAmount og path = .ok r →
        r.optimal_amount = og.min_amount ∧ r.expected_profit = 0) ∧
      (∀ r, gridFindOptimalAmount ogr path = .ok r →
        r.optimal_amount = ogr.min_amount ∧ r.expected_profit = 0)) := by
  refine ⟨?_, ?_, ?_, ?_⟩
  · intro r h
    rw [ternaryFindOptimalAmount] at h
    split at h
    · exact absurd h (by simp)
    · obtain rfl := (Except.ok.inj h).symm
      exact ternaryLoop_nonneg ot path ot.max_iterations
        (bigUintToQ ot.min_amount) (bigUintToQ ot.max_amount) 0
        ot.min_amount 0 le_rfl
  · intro r h
    rw [goldenFindOptimalAmount] at h
    split at h
    · exact absurd h (by simp)
    · obtain rfl := (Except.ok.inj h).symm
      exact goldenLoop_nonneg og path og.max_iterations _ _ _ _ _ _ 0
        og.min_amount 0 le_rfl
  · intro r h
    rw [gridFindOptimalAmount] at h
    split at h
    · exact absurd h (by simp)
    · obtain rfl := (Except.ok.inj h).symm
      dsimp only
      exact foldl_preserve (fun b : Nat × Int => 0 ≤ b.2) _
        (fun b i hb => updateBest_nonneg _ _ _ hb)
        (List.range ogr.grid_points) (ogr.min_amount, 0) le_rfl
  · intro hle
    refine ⟨?_, ?_, ?_⟩
    · intro r h
      rw [ternaryFindOptimalAmount] at h
      split at h
      · exact absurd h (by simp)
      · obtain rfl := (Except.ok.inj h).symm
        obtain ⟨l₁, r₁, it₁, hX⟩ := ternaryLoop_alllose ot path hle
          ot.max_iterations (bigUintToQ ot.min_amount)
          (bigUintToQ ot.max_amount) 0 ot.min_amount
        constructor
        · show (ternaryLoop ot path ot.max_iterations
            (bigUintToQ ot.min_amount) (bigUintToQ ot.max_amount) 0
            ot.min_amount 0).2.2.2.1 = ot.min_amount
          rw [hX]
        · show (ternaryLoop ot path ot.max_iterations
            (bigUintToQ ot.min_amount) (bigUintToQ ot.max_amount) 0
            ot.min_amount 0).2.2.2.2 = 0
          rw [hX]
    · intro r h
      rw [goldenFindOptimalAmount] at h
      split at h
      · exact absurd h (by simp)
      · obtain rfl := (Except.ok.inj h).symm
        obtain ⟨a₁, b₁, it₁, hX⟩ := goldenLoop_alllose og path hle
          og.max_iterations (bigUintToQ og.min_amount)
          (bigUintToQ og.max_amount)
          (bigUintToQ og.max_amount -
            (bigUintToQ og.max_amount - bigUintToQ og.min_amount) / og.phi)
          (bigUintToQ og.min_amount +
            (bigUintToQ og.max_amount - bigUintToQ og.min_amount) / og.phi)
          (evaluateProfit path (qToBigUint (bigUintToQ og.max_amount -
            (bigUintToQ og.max_amount - bigUintToQ og.min_amount) / og.phi)))
          (evaluateProfit path (qToBigUint (bigUintToQ og.min_amount +
            (bigUintToQ og.max_amount - bigUintToQ og.min_amount) / og.phi)))
          0 og.min_amount (hle _) (hle _)
        constructor
        · show (goldenLoop og path og.max_iterations
            (bigUintToQ og.min_amount) (bigUintToQ og.max_amount)
            (bigUintToQ og.max_amount -
              (bigUintToQ og.max_amount - bigUintToQ og.min_amount) / og.phi)
            (bigUintToQ og.min_amount +
              (bigUintToQ og.max_amount - bigUintToQ og.min_amount) / og.phi)
            (evaluateProfit path (qToBigUint (bigUintToQ og.max_amount -
              (bigUintToQ og.max_amount - bigUintToQ og.min_amount) / og.phi)))
            (evaluateProfit path (qToBigUint (bigUintToQ og.min_amount +
              (bigUintToQ og.max_amount - bigUintToQ og.min_amount) / og.phi)))
            0 og.min_amount 0).2.2.2.1 = og.min_amount
          rw [hX]
        · show (goldenLoop og path og.max_iterations
            (bigUintToQ og.min_amount) (bigUintToQ og.max_amount)
            (bigUintToQ og.max_amount -
              (bigUintToQ og.max_amount - bigUintToQ og.min_amount) / og.phi)
            (bigUintToQ og.min_amount +
              (bigUintToQ og.max_amount - bigUintToQ og.min_amount) / og.phi)
            (evaluateProfit path (qToBigUint (bigUintToQ og.max_amount -
              (bigUintToQ og.max_amount - bigUintToQ og.min_amount) / og.phi)))
            (evaluateProfit path (qToBigUint (bigUintToQ og.min_amount +
              (bigUintToQ og.max_amount - bigUintToQ og.min_amount) / og.phi)))
            0 og.min_amount 0).2.2.2.2 = 0
          rw [hX]
    · intro r h
      rw [gridFindOptimalAmount] at h
      split at h
      · exact absurd h (by simp)
      · obtain rfl := (Except.ok.inj h).symm
        have hB := foldl_preserve
          (fun b : Nat × Int => b = (ogr.min_amount, (0 : Int)))
          (fun (best : Nat × Int) (i : Nat) =>
            updateBest best
              (qToBigUint (bigUintToQ ogr.min_amount + (i : ℚ) *
                ((bigUintToQ ogr.max_amount - bigUintToQ ogr.min_amount) /
                  ((ogr.grid_points - 1 : Nat) : ℚ))))
              (evaluateProfit path
                (qToBigUint (bigUintToQ ogr.min_amount + (i : ℚ) *
                  ((bigUintToQ ogr.max_amount - bigUintToQ ogr.min_amount) /
                    ((ogr.grid_points - 1 : Nat) : ℚ))))))
          (fun b i hb => by
            rw [hb]
            exact updateBest_id _ _ _ (hle _))
          (List.range ogr.grid_points) (ogr.min_amount, 0) rfl
        exact ⟨congrArg Prod.fst hB, congrArg Prod.snd hB⟩

/-- Every profit evaluation of the loss fixture path is non-positive. -/
theorem lossSwap_alllose : ∀ amt, evaluateProfit [lossSwap] amt ≤ 0 := by
  intro amt
  cases amt with
  | zero => decide
  | succ n =>
    have h : calculateProfitLoss [lossSwap] (n + 1) =
        .error (.AmountExceedsLimits (n + 1) 0) := by
      rw [calculateProfitLoss]
      simp [cplLoop, lossSwap]
    rw [evaluateProfit, h]

/-- Claim C9, witness: the theorem applied to concrete configurations and the
concrete loss-making one-hop path, with the hypotheses discharged at the
result a zero-iteration ternary search returns. -/
theorem claimC9_witness :
    (⟨2, 0, 0, decide (bigUintToQ 9 - bigUintToQ 2 ≤ (1 : ℚ)),
        bigUintToQ 9 - bigUintToQ 2⟩ : OptimizationResult).optimal_amount = 2 ∧
    (⟨2, 0, 0, decide (bigUintToQ 9 - bigUintToQ 2 ≤ (1 : ℚ)),
        bigUintToQ 9 - bigUintToQ 2⟩ :
      OptimizationResult).expected_profit = 0 :=
  ((claimC9_no_loss_reported ⟨0, 1, 2, 9⟩ ⟨2, 1, 1, 10, 2⟩ ⟨5, 2, 9⟩
      [lossSwap]).2.2.2 lossSwap_alllose).1
    ⟨2, 0, 0, decide (bigUintToQ 9 - bigUintToQ 2 ≤ (1 : ℚ)),
      bigUintToQ 9 - bigUintToQ 2⟩ rfl

/-! ### Claims C4 and C10: discovery invariants -/

/-- `foldl_rel` strengthened: each step may also use that the accumulator is
already related to the initial value. -/
theorem foldl_rel_inv {α β : Type} (R : β → β → Prop) (init : β)
    (hrefl : ∀ b, R b b)
    (htrans : ∀ b₁ b₂ b₃, R b₁ b₂ → R b₂ b₃ → R b₁ b₃)
    (f : β → α → β) (l : List α)
    (hstep : ∀ b x, x ∈ l → R init b → R b (f b x)) :
    R init (l.foldl f init) := by
  suffices h : ∀ (l₁ : List α), (∀ b x, x ∈ l₁ → R init b → R b (f b x)) →
      ∀ acc, R init acc → R init (l₁.foldl f acc) by
    exact h l hstep init (hrefl init)
  intro l₁
  induction l₁ with
  | nil => intro _ acc hacc; exact hacc
  | cons x xs ih =>
    intro hstep₁ acc hacc
    exact ih (fun b y hy hb => hstep₁ b y (List.mem_cons_of_mem x hy) hb)
      (f acc x) (htrans _ _ _ hacc (hstep₁ acc x (by simp) hacc))

theorem contains_true (l : List Nat) (x : Nat) : l.contains x = true ↔ x ∈ l := by
  simp [List.contains_iff_exists_mem_beq]

theorem contains_false (l : List Nat) (x : Nat) :
    l.contains x = false ↔ x ∉ l := by
  rw [← contains_true]
  cases l.contains x <;> simp

theorem tail_append_singleton {α : Type} (l : List α) (x : α) (h : l ≠ []) :
    (l ++ [x]).tail = l.tail ++ [x] := by
  cases l with
  | nil => exact absurd rfl h
  | cons a as => rfl

theorem getD_mem (l : List Nat) (i : Nat) (d : Nat) (h : i < l.length) :
    l.getD i d ∈ l := by
  induction l generalizing i with
  | nil => simp at h
  | cons a as ih =>
    cases i with
    | zero => simp
    | succ j =>
      simp only [List.getD_cons_succ]
      exact List.mem_cons_of_mem a (ih j (by simpa using h))

theorem getD_mem_list (l : List (List Nat)) (i : Nat) (h : i < l.length) :
    l.getD i [] ∈ l := by
  induction l generalizing i with
  | nil => simp at h
  | cons a as ih =>
    cases i with
    | zero => simp
    | succ j =>
      simp only [List.getD_cons_succ]
      exact List.mem_cons_of_mem a (ih j (by simpa using h))

/-- Pushing a below-bound index into the inverted index keeps every visible
entry below the bound. -/
theorem alistPush_bound (x bound : Nat) (hx : x < bound) :
    ∀ (m : List (Nat × List Nat)) (k a : Nat) (l : List Nat),
      alistLookup a (alistPush k x m) = some l →
      (∀ l₀, alistLookup a m = some l₀ → ∀ i ∈ l₀, i < bound) →
      ∀ i ∈ l, i < bound := by
  intro m
  induction m with
  | nil =>
    intro k a l hl _ i hi
    rw [alistPush, alistLookup] at hl
    split at hl
    · have hxl : [x] = l := by simpa using hl
      rw [← hxl] at hi
      simp at hi
      omega
    · exact absurd hl (by simp [alistLookup])
  | cons p rest ih =>
    obtain ⟨k₁, vs⟩ := p
    intro k a l hl h i hi
    rw [alistPush] at hl
    split at hl
    · rw [alistLookup] at hl
      split at hl
      · rename_i hak
        have hvl : vs ++ [x] = l := by simpa using hl
        rw [← hvl] at hi
        rcases List.mem_append.mp hi with h₁ | h₁
        · exact h vs (by rw [alistLookup, if_pos hak]) i h₁
        · simp at h₁
          omega
      · rename_i hak
        exact h l (by rw [alistLookup, if_neg hak]; exact hl) i hi
    · rw [alistLookup] at hl
      split at hl
      · rename_i hak
        have hvl : vs = l := by simpa using hl
        exact h l (by rw [alistLookup, if_pos hak, hvl]) i hi
      · rename_i hak
        exact ih k a l hl
          (fun l₀ hl₀ => h l₀ (by rw [alistLookup, if_neg hak]; exact hl₀)) i hi

theorem DiscExt_refl (g : TradingGraph) (sources : List Nat) (maxLen : Nat)
    (r : PathRepository) : DiscExt g sources maxLen r r :=
  ⟨rfl, rfl, id, ⟨[], by simp, by simp⟩, fun _ => ⟨[], by simp, by simp⟩⟩

theorem DiscExt_trans (g : TradingGraph) (sources : List Nat) (maxLen : Nat)
    (r₁ r₂ r₃ : PathRepository) (h₁ : DiscExt g sources maxLen r₁ r₂)
    (h₂ : DiscExt g sources maxLen r₂ r₃) : DiscExt g sources maxLen r₁ r₃ := by
  obtain ⟨hs₁, hm₁, hc₁, ⟨t₁, ht₁, hg₁⟩, hp₁⟩ := h₁
  obtain ⟨hs₂, hm₂, hc₂, ⟨t₂, ht₂, hg₂⟩, hp₂⟩ := h₂
  refine ⟨hs₂.trans hs₁, hm₂.trans hm₁, fun hc => hc₂ (hc₁ hc),
    ⟨t₁ ++ t₂, by rw [ht₂, ht₁, List.append_assoc], ?_⟩, ?_⟩
  · intro tp htp
    rcases List.mem_append.mp htp with h | h
    · exact hg₁ tp h
    · exact hg₂ tp h
  · intro hc
    obtain ⟨p₁, hp₁e, hr₁⟩ := hp₁ hc
    obtain ⟨p₂, hp₂e, hr₂⟩ := hp₂ (hc₁ hc)
    refine ⟨p₁ ++ p₂, by rw [hp₂e, hp₁e, List.append_assoc], ?_⟩
    intro pp hpp
    rcases List.mem_append.mp hpp with h | h
    · obtain ⟨tp, htp, hre⟩ := hr₁ pp h
      exact ⟨tp, by rw [ht₂]; exact List.mem_append_left _ htp, hre⟩
    · exact hr₂ pp h

theorem PoolExt_refl (g : TradingGraph) (tp : List Nat) (r : PathRepository) :
    PoolExt g tp r r :=
  ⟨rfl, rfl, rfl, rfl, ⟨[], by simp, by simp⟩⟩

theorem PoolExt_trans (g : TradingGraph) (tp : List Nat)
    (r₁ r₂ r₃ : PathRepository) (h₁ : PoolExt g tp r₁ r₂)
    (h₂ : PoolExt g tp r₂ r₃) : PoolExt g tp r₁ r₃ := by
  obtain ⟨hs₁, hm₁, ht₁, hi₁, ⟨p₁, hp₁, hr₁⟩⟩ := h₁
  obtain ⟨hs₂, hm₂, ht₂, hi₂, ⟨p₂, hp₂, hr₂⟩⟩ := h₂
  refine ⟨hs₂.trans hs₁, hm₂.trans hm₁, ht₂.trans ht₁, hi₂.trans hi₁,
    ⟨p₁ ++ p₂, by rw [hp₂, hp₁, List.append_assoc], ?_⟩⟩
  intro pp hpp
  rcases List.mem_append.mp hpp with h | h
  · exact hr₁ pp h
  · exact hr₂ pp h

theorem PoolPhaseExt_refl (g : TradingGraph) (r : PathRepository) :
    PoolPhaseExt g r r :=
  ⟨rfl, rfl, rfl, rfl, ⟨[], by simp, by simp⟩⟩

theorem PoolPhaseExt_trans (g : TradingGraph) (r₁ r₂ r₃ : PathRepository)
    (h₁ : PoolPhaseExt g r₁ r₂) (h₂ : PoolPhaseExt g r₂ r₃) :
    PoolPhaseExt g r₁ r₃ := by
  obtain ⟨hs₁, hm₁, ht₁, hi₁, ⟨p₁, hp₁, hr₁⟩⟩ := h₁
  obtain ⟨hs₂, hm₂, ht₂, hi₂, ⟨p₂, hp₂, hr₂⟩⟩ := h₂
  refine ⟨hs₂.trans hs₁, hm₂.trans hm₁, ht₂.trans ht₁, hi₂.trans hi₁,
    ⟨p₁ ++ p₂, by rw [hp₂, hp₁, List.append_assoc], ?_⟩⟩
  intro pp hpp
  rcases List.mem_append.mp hpp with h | h
  · exact hr₁ pp h
  · obtain ⟨tp, htp, hre⟩ := hr₂ pp h
    exact ⟨tp, by rw [ht₁] at htp; exact htp, hre⟩

/-- Storing a good token path is a `DiscExt` step. -/
theorem storeTokenPath_discExt (g : TradingGraph) (sources : List Nat)
    (maxLen : Nat) (tokenPath : List Nat) (repo : PathRepository)
    (hgood : goodTokenPath g sources maxLen tokenPath) :
    DiscExt g sources maxLen repo (storeDiscoveredTokenPath g tokenPath repo) := by
  refine ⟨rfl, rfl, ?_, ⟨[tokenPath], rfl, ?_⟩,
    fun _ => ⟨[], by simp [storeDiscoveredTokenPath], by simp⟩⟩
  · intro hc
    intro a l hl i hi
    have hP := foldl_preserve
      (fun m => ∀ a l, alistLookup a m = some l →
        ∀ i ∈ l, i < repo.token_paths.length + 1)
      (fun acc tokenIndex =>
        match getToken g tokenIndex with
        | .ok token => alistPush token.address repo.token_paths.length acc
        | .error _ => acc)
      (fun m ti hm => by
        dsimp only
        rcases hgt : getToken g ti with e | token
        · exact hm
        · intro a l hl
          exact alistPush_bound repo.token_paths.length
            (repo.token_paths.length + 1) (by omega) m token.address a l hl
            (fun l₀ h₀ => hm a l₀ h₀))
      tokenPath repo.token_to_path_indices
      (fun a l hl i hi => Nat.lt_succ_of_lt (hc a l hl i hi))
    have hb := hP a l hl i hi
    simpa [storeDiscoveredTokenPath] using hb
  · intro tp htp
    simp at htp
    subst htp
    exact hgood

/-- The token DFS only performs `DiscExt` extensions. -/
theorem dtpr_discExt (g : TradingGraph) (sources : List Nat)
    (off maxLen target : Nat) (h2 : 2 ≤ target) (hmax : target ≤ maxLen) :
    ∀ (fuel : Nat) (current : List Nat) (repo : PathRepository),
      current ≠ [] →
      (∃ s, current.head? = some s ∧ s ∈ sources) →
      current.Nodup →
      (∀ x ∈ current.tail, x ∉ sources) →
      DiscExt g sources maxLen repo
        (discoverTokenPathsRecursive g sources off target fuel current repo) := by
  intro fuel
  induction fuel with
  | zero =>
    intro current repo _ _ _ _
    exact DiscExt_refl g sources maxLen repo
  | succ fuel ih =>
    intro current repo hne hhead hnodup htail
    rw [discoverTokenPathsRecursive]
    rcases hlast : current.getLast? with _ | lastTok
    · exact DiscExt_refl g sources maxLen repo
    · dsimp only
      rcases hnb : tokenNeighbors g lastTok with e | ns
      · exact DiscExt_refl g sources maxLen repo
      · dsimp only
        split
        · split
          · rename_i htar hany
            apply storeTokenPath_discExt
            refine ⟨by omega, by omega, hhead, hnodup, htail,
              ⟨lastTok, ns, hlast, hnb, ?_⟩⟩
            rw [List.any_eq_true] at hany
            obtain ⟨n, hn, hc⟩ := hany
            exact ⟨n, hn, (contains_true sources n).mp hc⟩
          · exact DiscExt_refl g sources maxLen repo
        · apply foldl_rel (DiscExt g sources maxLen)
            (DiscExt_refl g sources maxLen) (DiscExt_trans g sources maxLen)
          intro b n hn
          split
          · rename_i hexp
            have hexp' : off ≤ n ∧ n ∉ sources ∧ n ∉ current := by
              simp only [shouldExploreTokenNeighbor, Bool.and_eq_true,
                decide_eq_true_eq, Bool.not_eq_true'] at hexp
              exact ⟨hexp.1.1, (contains_false sources n).mp hexp.1.2,
                (contains_false current n).mp hexp.2⟩
            apply ih (current ++ [n]) b (by simp)
            · obtain ⟨s, hs, hss⟩ := hhead
              exact ⟨s, by rw [List.head?_append, hs]; rfl, hss⟩
            · rw [List.nodup_append]
              refine ⟨hnodup, by simp, ?_⟩
              intro x hx hx'
              simp at hx'
              subst hx'
              exact hexp'.2.2 hx
            · rw [tail_append_singleton current n hne]
              intro x hx
              rcases List.mem_append.mp hx with h | h
              · exact htail x h
              · simp at h
                subst h
                exact hexp'.2.1
          · exact DiscExt_refl g sources maxLen b

/-- The whole token-path discovery phase is a `DiscExt` extension. -/
theorem discoverTokenPaths_discExt (g : TradingGraph) (sources : List Nat)
    (off : Nat) (repo : PathRepository) :
    DiscExt g sources repo.maximum_path_length repo
      (discoverTokenPaths g sources off repo) := by
  rw [discoverTokenPaths]
  apply foldl_rel (DiscExt g sources repo.maximum_path_length)
    (DiscExt_refl g sources repo.maximum_path_length)
    (DiscExt_trans g sources repo.maximum_path_length)
  intro b target htarget
  apply foldl_rel (DiscExt g sources repo.maximum_path_length)
    (DiscExt_refl g sources repo.maximum_path_length)
    (DiscExt_trans g sources repo.maximum_path_length)
  intro b₁ s hs
  have hmem := List.mem_range'_1.mp htarget
  exact dtpr_discExt g sources off repo.maximum_path_length target hmem.1
    (by omega) target [s] b₁ (by simp) ⟨s, rfl, hs⟩ (by simp) (by simp)

/-- Appending a pool that clashes with nothing keeps the path clash-free. -/
theorem noAddrClash_concat (g : TradingGraph) (x : Nat) :
    ∀ (l : List Nat), noAddrClash g l = true →
      (∀ e ∈ l, poolAddrClash g e x = false) →
      noAddrClash g (l ++ [x]) = true := by
  intro l
  induction l with
  | nil =>
    intro _ _
    simp [noAddrClash]
  | cons e rest ih =>
    intro h hcl
    rw [List.cons_append, noAddrClash]
    rw [noAddrClash, Bool.and_eq_true] at h
    rw [Bool.and_eq_true]
    refine ⟨?_, ih h.2 (fun e₁ he₁ => hcl e₁ (List.mem_cons_of_mem e he₁))⟩
    rw [List.all_append, Bool.and_eq_true]
    refine ⟨h.1, ?_⟩
    simp [hcl e (by simp)]

/-- A pool admitted by `should_use_pool_in_path` clashes with no pool already
on the path. -/
theorem shouldUse_no_clash (g : TradingGraph) (pi off : Nat) (flag : Bool)
    (current : List Nat)
    (h : shouldUsePoolInPath g pi off flag current = true) :
    ∀ e ∈ current, poolAddrClash g e pi = false := by
  intro e he
  rw [shouldUsePoolInPath] at h
  dsimp only at h
  split at h
  · exact absurd h (by simp)
  · simp only [Bool.not_eq_true'] at h
    have hne := List.any_eq_false.mp h e he
    cases hb : poolAddrClash g e pi
    · rfl
    · exact absurd hb hne

/-- The pool DFS for a fixed token path only performs `PoolExt` extensions. -/
theorem dppr_poolExt (g : TradingGraph) (off : Nat) (tp : List Nat) :
    ∀ (fuel : Nat) (current : List Nat) (repo : PathRepository),
      partialRealizes g tp current →
      PoolExt g tp repo
        (discoverPoolPathsRecursive g off tp fuel current repo) := by
  intro fuel
  induction fuel with
  | zero =>
    intro current repo _
    exact PoolExt_refl g tp repo
  | succ fuel ih =>
    intro current repo hpr
    rw [discoverPoolPathsRecursive]
    dsimp only
    split
    · rename_i hlen
      refine ⟨rfl, rfl, rfl, rfl, ⟨[current], rfl, ?_⟩⟩
      intro pp hpp
      simp at hpp
      subst hpp
      exact ⟨hlen, hpr.2.1, hpr.2.2⟩
    · rename_i hlen
      rcases hconn : poolsBetweenTokens g (tp.getD current.length 0,
          tp.getD ((current.length + 1) % tp.length) 0) with e | connectingPools
      · exact PoolExt_refl g tp repo
      · dsimp only
        apply foldl_rel (PoolExt g tp) (PoolExt_refl g tp) (PoolExt_trans g tp)
        intro b pi hpi
        split
        · rename_i huse
          apply ih (current ++ [pi]) b
          obtain ⟨hle, hhops, hclash⟩ := hpr
          refine ⟨?_, ?_, ?_⟩
          · rw [List.length_append]
            simp only [List.length_singleton]
            omega
          · intro j hj
            rw [List.length_append, List.length_singleton] at hj
            by_cases hjl : j < current.length
            · rw [List.getD_append current [pi] 0 j hjl]
              exact hhops j hjl
            · have hj₁ : j = current.length := by omega
              subst hj₁
              have hgd : (current ++ [pi]).getD current.length 0 = pi := by simp
              rw [hgd, hopOk, hconn]
              exact (contains_true connectingPools pi).mpr hpi
          · exact noAddrClash_concat g pi current hclash
              (shouldUse_no_clash g pi off _ current huse)
        · exact PoolExt_refl g tp b

/-- The pool-path phase never changes the configuration, token paths or
token index. -/
theorem dppfu_fields (g : TradingGraph) (po pc : Nat) (repo : PathRepository) :
    (discoverPoolPathsFromUpdates g po pc repo).source_tokens =
        repo.source_tokens ∧
    (discoverPoolPathsFromUpdates g po pc repo).maximum_path_length =
        repo.maximum_path_length ∧
    (discoverPoolPathsFromUpdates g po pc repo).token_paths =
        repo.token_paths ∧
    (discoverPoolPathsFromUpdates g po pc repo).token_to_path_indices =
        repo.token_to_path_indices := by
  rw [discoverPoolPathsFromUpdates]
  dsimp only
  apply foldl_rel
    (fun (r r₁ : PathRepository) =>
      r₁.source_tokens = r.source_tokens ∧
      r₁.maximum_path_length = r.maximum_path_length ∧
      r₁.token_paths = r.token_paths ∧
      r₁.token_to_path_indices = r.token_to_path_indices)
    (fun r => ⟨rfl, rfl, rfl, rfl⟩)
    (fun r₁ r₂ r₃ h₁ h₂ => ⟨h₂.1.trans h₁.1, h₂.2.1.trans h₁.2.1,
      h₂.2.2.1.trans h₁.2.2.1, h₂.2.2.2.trans h₁.2.2.2⟩)
  intro b idx _
  have hP := dppr_poolExt g po (b.token_paths.getD idx [])
    ((b.token_paths.getD idx []).length + 1) [] b
    ⟨Nat.zero_le _, fun j hj => absurd hj (by simp), rfl⟩
  exact ⟨hP.1, hP.2.1, hP.2.2.1, hP.2.2.2.1⟩

/-- On a consistent repository, the pool-path phase is a `PoolPhaseExt`
extension. -/
theorem dppfu_poolPhaseExt (g : TradingGraph) (po pc : Nat)
    (repo : PathRepository) (htic : tokenIndexConsistent repo) :
    PoolPhaseExt g repo (discoverPoolPathsFromUpdates g po pc repo) := by
  have hbound : ∀ idx ∈ findRelevantTokenPaths repo g
      (findTokensAffectedByNewPools g po pc),
      idx < repo.token_paths.length := by
    intro idx hidx
    rw [findRelevantTokenPaths] at hidx
    obtain ⟨ti, _, hidx₂⟩ :=
      List.mem_flatMap.mp ((mem_sortDedup _ _).mp hidx)
    rcases hgt : getToken g ti with e | token
    · rw [hgt] at hidx₂
      simp at hidx₂
    · rw [hgt] at hidx₂
      dsimp only at hidx₂
      rcases hlk : alistLookup token.address repo.token_to_path_indices with
        _ | l
      · rw [hlk] at hidx₂
        simp at hidx₂
      · rw [hlk] at hidx₂
        exact htic token.address l hlk idx (by simpa using hidx₂)
  rw [discoverPoolPathsFromUpdates]
  dsimp only
  apply foldl_rel_inv (PoolPhaseExt g) repo (PoolPhaseExt_refl g)
    (PoolPhaseExt_trans g)
  intro b idx hidx hRb
  have hlen : idx < b.token_paths.length := by
    rw [hRb.2.2.1]
    exact hbound idx hidx
  have hmem : b.token_paths.getD idx [] ∈ b.token_paths :=
    getD_mem_list _ _ hlen
  have hP := dppr_poolExt g po (b.token_paths.getD idx [])
    ((b.token_paths.getD idx []).length + 1) [] b
    ⟨Nat.zero_le _, fun j hj => absurd hj (by simp), rfl⟩
  obtain ⟨hs, hm, ht, hi, ⟨suf, hpp, hreal⟩⟩ := hP
  exact ⟨hs, hm, ht, hi, ⟨suf, hpp,
    fun pp hppm => ⟨b.token_paths.getD idx [], hmem, hreal pp hppm⟩⟩⟩

/-- One `discover_paths` call is a `DiscExt` extension for the sources
resolved at call time and the configured maximum length. -/
theorem discoverPaths_discExt (repo : PathRepository) (g : TradingGraph)
    (a b c d : Nat) :
    DiscExt g (resolveSourceTokenIndices repo g) repo.maximum_path_length repo
      (discoverPaths repo g a b c d) := by
  show DiscExt g (resolveSourceTokenIndices repo g) repo.maximum_path_length
    repo (discoverPoolPathsFromUpdates g c d
      (discoverTokenPaths g (resolveSourceTokenIndices repo g) a repo))
  have h₁ := discoverTokenPaths_discExt g (resolveSourceTokenIndices repo g)
    a repo
  apply DiscExt_trans g (resolveSourceTokenIndices repo g)
    repo.maximum_path_length repo
    (discoverTokenPaths g (resolveSourceTokenIndices repo g) a repo) _ h₁
  obtain ⟨hf₁, hf₂, hf₃, hf₄⟩ := dppfu_fields g c d
    (discoverTokenPaths g (resolveSourceTokenIndices repo g) a repo)
  refine ⟨hf₁, hf₂, ?_, ⟨[], by rw [hf₃, List.append_nil], by simp⟩, ?_⟩
  · intro hc a₁ l hl i hi
    rw [hf₄] at hl
    rw [hf₃]
    exact hc a₁ l hl i hi
  · intro hc
    obtain ⟨_, _, ht, _, ⟨suf, hpp, hreal⟩⟩ := dppfu_poolPhaseExt g c d
      (discoverTokenPaths g (resolveSourceTokenIndices repo g) a repo) hc
    refine ⟨suf, hpp, ?_⟩
    intro pp hppm
    obtain ⟨tp, htp, hre⟩ := hreal pp hppm
    exact ⟨tp, by rw [ht]; exact htp, hre⟩

/-- Combined invariant of every reachable repository state: the token index
is consistent, every stored token path is good, and every stored pool path
realizes some stored token path. -/
theorem reachable_spec (g : TradingGraph) (repo : PathRepository)
    (h : Reachable g repo) :
    tokenIndexConsistent repo ∧
    (∀ tp ∈ repo.token_paths,
      goodTokenPath g (resolveSourceTokenIndices repo g)
        repo.maximum_path_length tp) ∧
    (∀ pp ∈ repo.pool_paths, ∃ tp, tp ∈ repo.token_paths ∧ realizes g tp pp) := by
  induction h with
  | base st ml =>
    refine ⟨?_, ?_, ?_⟩
    · intro a l hl
      simp [PathRepository.new, alistLookup] at hl
    · intro tp htp
      simp [PathRepository.new] at htp
    · intro pp hpp
      simp [PathRepository.new] at hpp
  | step r a b c d hr ih =>
    obtain ⟨htic, hgood, hreal⟩ := ih
    obtain ⟨hs, hm, hticp, ⟨suf, hts, hgs⟩, hpool⟩ :=
      discoverPaths_discExt r g a b c d
    have hres : resolveSourceTokenIndices (discoverPaths r g a b c d) g =
        resolveSourceTokenIndices r g := by
      simp only [resolveSourceTokenIndices, hs]
    refine ⟨hticp htic, ?_, ?_⟩
    · intro tp htp
      rw [hres, hm]
      rw [hts] at htp
      rcases List.mem_append.mp htp with h₁ | h₁
      · exact hgood tp h₁
      · exact hgs tp h₁
    · intro pp hpp
      obtain ⟨sufP, hps, hrs⟩ := hpool htic
      rw [hps] at hpp
      rcases List.mem_append.mp hpp with h₁ | h₁
      · obtain ⟨tp, htp, hre⟩ := hreal pp h₁
        exact ⟨tp, by rw [hts]; exact List.mem_append_left _ htp, hre⟩
      · exact hrs pp h₁

/-- Claim C10: every token path ever stored by `discover_paths` (every entry
of a reachable repository) has between 2 and `maximum_path_length` entries,
starts at a resolved source-token index, repeats no token, contains no source
token after its first entry, and its last token is adjacent in the graph to
some source token. -/
theorem claimC10_token_path_invariant (g : TradingGraph)
    (repo : PathRepository) (h : Reachable g repo) :
    ∀ tp ∈ repo.token_paths,
      goodTokenPath g (resolveSourceTokenIndices repo g)
        repo.maximum_path_length tp :=
  (reachable_spec g repo h).2.1

/-- Claim C10, witness: the stored path `[0, 1]` of the discovered fixture. -/
theorem claimC10_witness :
    goodTokenPath cexGraph (resolveSourceTokenIndices cexRepo₁ cexGraph)
      cexRepo₁.maximum_path_length [0, 1] :=
  claimC10_token_path_invariant cexGraph cexRepo₁
    (Reachable.step (PathRepository.new [10] 2) 0 2 0 4
      (Reachable.base [10] 2)) [0, 1] (by decide)

/-- Claim C4, counterexample to the claim as stated: in a reachable
repository state, `pool_paths` has two entries while `token_paths` has one,
so `pool_paths[1]` cannot realize `token_paths[1]` — the same-index
correspondence the claim asserts does not exist. -/
theorem claimC4_counterexample :
    cexRepo₁.pool_paths.length = 2 ∧ cexRepo₁.token_paths.length = 1 ∧
    ¬realizes cexGraph (cexRepo₁.token_paths.getD 1 [])
      (cexRepo₁.pool_paths.getD 1 []) :=
  ⟨by decide, by decide, by decide⟩

/-- Claim C4, corrected: in every reachable repository state, every stored
pool path realizes the cycle of some stored token path — one pool per hop
(wrapping back to the front), each pool listed by the graph for the
corresponding consecutive token pair, and no pool address repeated within
the path — but the realized token path need not sit at the same array
index. -/
theorem claimC4_amended (g : TradingGraph) (repo : PathRepository)
    (h : Reachable g repo) :
    ∀ pp ∈ repo.pool_paths, ∃ tp, tp ∈ repo.token_paths ∧ realizes g tp pp :=
  (reachable_spec g repo h).2.2

/-- Claim C4, witness: the stored pool path `[2, 1]` of the discovered
fixture realizes a stored token path. -/
theorem claimC4_amended_witness :
    ∃ tp, tp ∈ cexRepo₁.token_paths ∧ realizes cexGraph tp [2, 1] :=
  claimC4_amended cexGraph cexRepo₁
    (Reachable.step (PathRepository.new [10] 2) 0 2 0 4
      (Reachable.base [10] 2)) [2, 1] (by decide)

/-! ### Claim C8: `add_protocol_component` pair expansion -/

/-- A pair key with an out-of-range component is absent from a pair index
whose keys are all in range. -/
theorem alistLookup_pair_none (m : List ((Nat × Nat) × List Nat))
    (bound : Nat) (hm : ∀ k v, (k, v) ∈ m → k.1 < bound ∧ k.2 < bound)
    (x y : Nat) (hxy : bound ≤ x ∨ bound ≤ y) :
    alistLookup (x, y) m = none := by
  induction m with
  | nil => rfl
  | cons p rest ih =>
    obtain ⟨k, v⟩ := p
    rw [alistLookup]
    split
    · rename_i he
      exfalso
      have hb := hm k v (by simp)
      rw [← he] at hb
      simp at hb
      omega
    · exact ih (fun k₁ v₁ h₁ => hm k₁ v₁ (List.mem_cons_of_mem _ h₁))

theorem listModify_append {α : Type} (l₁ l₂ : List α) (f : α → α) :
    ∀ i, listModify (l₁ ++ l₂) (l₁.length + i) f = l₁ ++ listModify l₂ i f := by
  induction l₁ with
  | nil => intro i; simp
  | cons x xs ih =>
    intro i
    have hx : (x :: xs).length + i = (xs.length + i) + 1 := by
      simp [List.length_cons]
      omega
    rw [List.cons_append, hx, listModify, ih]
    rfl

theorem listModify_append_zero {α : Type} (l₁ l₂ : List α) (f : α → α) :
    listModify (l₁ ++ l₂) l₁.length f = l₁ ++ listModify l₂ 0 f := by
  have h := listModify_append l₁ l₂ f 0
  simpa using h

theorem getD_append_add {α : Type} (l₁ l₂ : List α) (d : α) :
    ∀ i, (l₁ ++ l₂).getD (l₁.length + i) d = l₂.getD i d := by
  induction l₁ with
  | nil => intro i; simp
  | cons x xs ih =>
    intro i
    have hx : (x :: xs).length + i = (xs.length + i) + 1 := by
      simp [List.length_cons]
      omega
    rw [List.cons_append, hx, List.getD_cons_succ, ih]

/-- Claim C8: `add_protocol_component` rejects token counts outside 2 to 4
with the invalid-token-count error, leaving the graph unchanged; starting
from a graph not containing the component's tokens, a 3-token component
yields exactly 3 pairwise pools (6 directed entries, all carrying the
component address) and each of the 3 new tokens ends with exactly 2
neighbors, while a 4-token component yields exactly 6 pairwise pools (12
directed entries with the component address) and 3 neighbors per token. -/
theorem claimC8_add_protocol_component (g : TradingGraph)
    (pa t₁ t₂ t₃ t₄ : Nat)
    (hd₁₂ : t₁ ≠ t₂) (hd₁₃ : t₁ ≠ t₃) (hd₁₄ : t₁ ≠ t₄)
    (hd₂₃ : t₂ ≠ t₃) (hd₂₄ : t₂ ≠ t₄) (hd₃₄ : t₃ ≠ t₄)
    (hf₁ : alistLookup t₁ g.token_address_to_id = none)
    (hf₂ : alistLookup t₂ g.token_address_to_id = none)
    (hf₃ : alistLookup t₃ g.token_address_to_id = none)
    (hf₄ : alistLookup t₄ g.token_address_to_id = none)
    (hpair : ∀ k v, (k, v) ∈ g.token_pair_to_pools →
      k.1 < g.tokens.length ∧ k.2 < g.tokens.length) :
    (∀ tokenAddresses : List Nat,
      tokenAddresses.length < 2 ∨ 4 < tokenAddresses.length →
      addProtocolComponent g pa tokenAddresses =
        (g, .error (.InvalidTokenCount tokenAddresses.length))) ∧
    (∃ infos, (addProtocolComponent g pa [t₁, t₂, t₃]).2 = .ok infos ∧
      infos.length = 3) ∧
    (addProtocolComponent g pa [t₁, t₂, t₃]).1.tokens.length =
      g.tokens.length + 3 ∧
    (addProtocolComponent g pa [t₁, t₂, t₃]).1.pools.length =
      g.pools.length + 6 ∧
    (∀ j, j < 6 →
      ((addProtocolComponent g pa [t₁, t₂, t₃]).1.pools.getD
        (g.pools.length + j) ⟨0, (0, 0)⟩).address = pa) ∧
    (∀ i, i < 3 →
      ((addProtocolComponent g pa [t₁, t₂, t₃]).1.tokens.getD
        (g.tokens.length + i) (TokenNode.new 0)).neighbors.length = 2) ∧
    (∃ infos, (addProtocolComponent g pa [t₁, t₂, t₃, t₄]).2 = .ok infos ∧
      infos.length = 6) ∧
    (addProtocolComponent g pa [t₁, t₂, t₃, t₄]).1.tokens.length =
      g.tokens.length + 4 ∧
    (addProtocolComponent g pa [t₁, t₂, t₃, t₄]).1.pools.length =
      g.pools.length + 12 ∧
    (∀ j, j < 12 →
      ((addProtocolComponent g pa [t₁, t₂, t₃, t₄]).1.pools.getD
        (g.pools.length + j) ⟨0, (0, 0)⟩).address = pa) ∧
    (∀ i, i < 4 →
      ((addProtocolComponent g pa [t₁, t₂, t₃, t₄]).1.tokens.getD
        (g.tokens.length + i) (TokenNode.new 0)).neighbors.length = 3) := by
  have hk : ∀ x y : Nat, g.tokens.length ≤ x ∨ g.tokens.length ≤ y →
      alistLookup (x, y) g.token_pair_to_pools = none :=
    fun x y h =>
      alistLookup_pair_none g.token_pair_to_pools g.tokens.length hpair x y h
  have hk01 := hk g.tokens.length (g.tokens.length + 1) (Or.inl le_rfl)
  have hk10 := hk (g.tokens.length + 1) g.tokens.length (Or.inr le_rfl)
  have hk02 := hk g.tokens.length (g.tokens.length + 2) (Or.inl le_rfl)
  have hk20 := hk (g.tokens.length + 2) g.tokens.length (Or.inr le_rfl)
  have hk03 := hk g.tokens.length (g.tokens.length + 3) (Or.inl le_rfl)
  have hk30 := hk (g.tokens.length + 3) g.tokens.length (Or.inr le_rfl)
  have hk12 := hk (g.tokens.length + 1) (g.tokens.length + 2) (Or.inl (by omega))
  have hk21 := hk (g.tokens.length + 2) (g.tokens.length + 1) (Or.inr (by omega))
  have hk13 := hk (g.tokens.length + 1) (g.tokens.length + 3) (Or.inl (by omega))
  have hk31 := hk (g.tokens.length + 3) (g.tokens.length + 1) (Or.inr (by omega))
  have hk23 := hk (g.tokens.length + 2) (g.tokens.length + 3) (Or.inl (by omega))
  have hk32 := hk (g.tokens.length + 3) (g.tokens.length + 2) (Or.inr (by omega))
  have e01 : g.tokens.length ≠ g.tokens.length + 1 := by omega
  have e10 : g.tokens.length + 1 ≠ g.tokens.length := by omega
  have e02 : g.tokens.length ≠ g.tokens.length + 2 := by omega
  have e20 : g.tokens.length + 2 ≠ g.tokens.length := by omega
  have e03 : g.tokens.length ≠ g.tokens.length + 3 := by omega
  have e30 : g.tokens.length + 3 ≠ g.tokens.length := by omega
  have e12 : g.tokens.length + 1 ≠ g.tokens.length + 2 := by omega
  have e21 : g.tokens.length + 2 ≠ g.tokens.length + 1 := by omega
  have e13 : g.tokens.length + 1 ≠ g.tokens.length + 3 := by omega
  have e31 : g.tokens.length + 3 ≠ g.tokens.length + 1 := by omega
  have e23 : g.tokens.length + 2 ≠ g.tokens.length + 3 := by omega
  have e32 : g.tokens.length + 3 ≠ g.tokens.length + 2 := by omega
  have b20 : ¬(g.tokens.length + 2 ≤ g.tokens.length) := by omega
  have b21 : ¬(g.tokens.length + 2 ≤ g.tokens.length + 1) := by omega
  have b30 : ¬(g.tokens.length + 3 ≤ g.tokens.length) := by omega
  have b31 : ¬(g.tokens.length + 3 ≤ g.tokens.length + 1) := by omega
  have b32 : ¬(g.tokens.length + 3 ≤ g.tokens.length + 2) := by omega
  have b40 : ¬(g.tokens.length + 4 ≤ g.tokens.length) := by omega
  have b41 : ¬(g.tokens.length + 4 ≤ g.tokens.length + 1) := by omega
  have b42 : ¬(g.tokens.length + 4 ≤ g.tokens.length + 2) := by omega
  have b43 : ¬(g.tokens.length + 4 ≤ g.tokens.length + 3) := by omega
  have hgen₃ : generateTokenPairs [t₁, t₂, t₃] =
      [(t₁, t₂), (t₁, t₃), (t₂, t₃)] := rfl
  have hgen₄ : generateTokenPairs [t₁, t₂, t₃, t₄] =
      [(t₁, t₂), (t₁, t₃), (t₁, t₄), (t₂, t₃), (t₂, t₄), (t₃, t₄)] := rfl
  have hmain₃ : addProtocolComponent g pa [t₁, t₂, t₃] =
      (⟨g.tokens ++
          [⟨t₁, [g.tokens.length + 1, g.tokens.length + 2]⟩,
           ⟨t₂, [g.tokens.length, g.tokens.length + 2]⟩,
           ⟨t₃, [g.tokens.length, g.tokens.length + 1]⟩],
        g.pools ++
          [⟨pa, (g.tokens.length, g.tokens.length + 1)⟩,
           ⟨pa, (g.tokens.length + 1, g.tokens.length)⟩,
           ⟨pa, (g.tokens.length, g.tokens.length + 2)⟩,
           ⟨pa, (g.tokens.length + 2, g.tokens.length)⟩,
           ⟨pa, (g.tokens.length + 1, g.tokens.length + 2)⟩,
           ⟨pa, (g.tokens.length + 2, g.tokens.length + 1)⟩],
        (t₃, g.tokens.length + 2) :: (t₂, g.tokens.length + 1) ::
          (t₁, g.tokens.length) :: g.token_address_to_id,
        ((g.tokens.length + 2, g.tokens.length + 1), [g.pools.length + 5]) ::
          ((g.tokens.length + 1, g.tokens.length + 2), [g.pools.length + 4]) ::
          ((g.tokens.length + 2, g.tokens.length), [g.pools.length + 3]) ::
          ((g.tokens.length, g.tokens.length + 2), [g.pools.length + 2]) ::
          ((g.tokens.length + 1, g.tokens.length), [g.pools.length + 1]) ::
          ((g.tokens.length, g.tokens.length + 1), [g.pools.length]) ::
          g.token_pair_to_pools⟩,
      .ok [⟨(g.tokens.length, g.tokens.length + 1),
              (g.pools.length, g.pools.length + 1)⟩,
           ⟨(g.tokens.length, g.tokens.length + 2),
              (g.pools.length + 2, g.pools.length + 3)⟩,
           ⟨(g.tokens.length + 1, g.tokens.length + 2),
              (g.pools.length + 4, g.pools.length + 5)⟩]) := by
    rw [addProtocolComponent, if_neg (by simp), hgen₃]
    simp only [addComponentPairs, addToken, addPool, addPoolDirected,
      alistLookup, alistInsert, listModify, TokenNode.new,
      TokenNode.addNeighbor, hf₁, hf₂, hf₃, hk01, hk10, hk02, hk20, hk12,
      hk21, e01, e10, e02, e20, e12, e21, b20, b21, b30, b31, b32,
      Ne.symm hd₁₂, Ne.symm hd₁₃, Ne.symm hd₂₃, hd₁₂, hd₁₃, hd₂₃,
      listModify_append, listModify_append_zero, List.length_append,
      List.length_cons, List.length_nil, List.append_assoc,
      List.cons_append, List.singleton_append, List.nil_append,
      List.mem_singleton, List.mem_cons, List.not_mem_nil, Prod.mk.injEq,
      if_true, if_false, ite_true, ite_false, not_false_iff, and_true,
      true_and, and_false, false_and, or_false, false_or, reduceCtorEq]
  have hmain₄ : addProtocolComponent g pa [t₁, t₂, t₃, t₄] =
      (⟨g.tokens ++
          [⟨t₁, [g.tokens.length + 1, g.tokens.length + 2,
                 g.tokens.length + 3]⟩,
           ⟨t₂, [g.tokens.length, g.tokens.length + 2,
                 g.tokens.length + 3]⟩,
           ⟨t₃, [g.tokens.length, g.tokens.length + 1,
                 g.tokens.length + 3]⟩,
           ⟨t₄, [g.tokens.length, g.tokens.length + 1,
                 g.tokens.length + 2]⟩],
        g.pools ++
          [⟨pa, (g.tokens.length, g.tokens.length + 1)⟩,
           ⟨pa, (g.tokens.length + 1, g.tokens.length)⟩,
           ⟨pa, (g.tokens.length, g.tokens.length + 2)⟩,
           ⟨pa, (g.tokens.length + 2, g.tokens.length)⟩,
           ⟨pa, (g.tokens.length, g.tokens.length + 3)⟩,
           ⟨pa, (g.tokens.length + 3, g.tokens.length)⟩,
           ⟨pa, (g.tokens.length + 1, g.tokens.length + 2)⟩,
           ⟨pa, (g.tokens.length + 2, g.tokens.length + 1)⟩,
           ⟨pa, (g.tokens.length + 1, g.tokens.length + 3)⟩,
           ⟨pa, (g.tokens.length + 3, g.tokens.length + 1)⟩,
           ⟨pa, (g.tokens.length + 2, g.tokens.length + 3)⟩,
           ⟨pa, (g.tokens.length + 3, g.tokens.length + 2)⟩],
        (t₄, g.tokens.length + 3) :: (t₃, g.tokens.length + 2) ::
          (t₂, g.tokens.length + 1) :: (t₁, g.tokens.length) ::
          g.token_address_to_id,
        ((g.tokens.length + 3, g.tokens.length + 2), [g.pools.length + 11]) ::
          ((g.tokens.length + 2, g.tokens.length + 3), [g.pools.length + 10]) ::
          ((g.tokens.length + 3, g.tokens.length + 1), [g.pools.length + 9]) ::
          ((g.tokens.length + 1, g.tokens.length + 3), [g.pools.length + 8]) ::
          ((g.tokens.length + 2, g.tokens.length + 1), [g.pools.length + 7]) ::
          ((g.tokens.length + 1, g.tokens.length + 2), [g.pools.length + 6]) ::
          ((g.tokens.length + 3, g.tokens.length), [g.pools.length + 5]) ::
          ((g.tokens.length, g.tokens.length + 3), [g.pools.length + 4]) ::
          ((g.tokens.length + 2, g.tokens.length), [g.pools.length + 3]) ::
          ((g.tokens.length, g.tokens.length + 2), [g.pools.length + 2]) ::
          ((g.tokens.length + 1, g.tokens.length), [g.pools.length + 1]) ::
          ((g.tokens.length, g.tokens.length + 1), [g.pools.length]) ::
          g.token_pair_to_pools⟩,
      .ok [⟨(g.tokens.length, g.tokens.length + 1),
              (g.pools.length, g.pools.length + 1)⟩,
           ⟨(g.tokens.length, g.tokens.length + 2),
              (g.pools.length + 2, g.pools.length + 3)⟩,
           ⟨(g.tokens.length, g.tokens.length + 3),
              (g.pools.length + 4, g.pools.length + 5)⟩,
           ⟨(g.tokens.length + 1, g.tokens.length + 2),
              (g.pools.length + 6, g.pools.length + 7)⟩,
           ⟨(g.tokens.length + 1, g.tokens.length + 3),
              (g.pools.length + 8, g.pools.length + 9)⟩,
           ⟨(g.tokens.length + 2, g.tokens.length + 3),
              (g.pools.length + 10, g.pools.length + 11)⟩]) := by
    rw [addProtocolComponent, if_neg (by simp), hgen₄]
    simp only [addComponentPairs, addToken, addPool, addPoolDirected,
      alistLookup, alistInsert, listModify, TokenNode.new,
      TokenNode.addNeighbor, hf₁, hf₂, hf₃, hf₄, hk01, hk10, hk02, hk20,
      hk03, hk30, hk12, hk21, hk13, hk31, hk23, hk32, e01, e10, e02, e20,
      e03, e30, e12, e21, e13, e31, e23, e32, b20, b21, b30, b31, b32, b40,
      b41, b42, b43, Ne.symm hd₁₂, Ne.symm hd₁₃, Ne.symm hd₁₄, Ne.symm hd₂₃,
      Ne.symm hd₂₄, Ne.symm hd₃₄, hd₁₂, hd₁₃, hd₁₄, hd₂₃, hd₂₄, hd₃₄,
      listModify_append, listModify_append_zero, List.length_append,
      List.length_cons, List.length_nil, List.append_assoc,
      List.cons_append, List.singleton_append, List.nil_append,
      List.mem_singleton, List.mem_cons, List.not_mem_nil, Prod.mk.injEq,
      if_true, if_false, ite_true, ite_false, not_false_iff, and_true,
      true_and, and_false, false_and, or_false, false_or, reduceCtorEq]
  refine ⟨?_, ?_, ?_, ?_, ?_, ?_, ?_, ?_, ?_, ?_, ?_⟩
  · intro ta hta
    rw [addProtocolComponent, if_pos hta]
  · rw [hmain₃]
    exact ⟨_, rfl, rfl⟩
  · rw [hmain₃]
    simp
  · rw [hmain₃]
    simp
  · intro j hj
    rw [hmain₃]
    show ((g.pools ++ _).getD (g.pools.length + j) _).address = pa
    rw [getD_append_add]
    interval_cases j <;> rfl
  · intro i hi
    rw [hmain₃]
    show ((g.tokens ++ _).getD (g.tokens.length + i) _).neighbors.length = 2
    rw [getD_append_add]
    interval_cases i <;> rfl
  · rw [hmain₄]
    exact ⟨_, rfl, rfl⟩
  · rw [hmain₄]
    simp
  · rw [hmain₄]
    simp
  · intro j hj
    rw [hmain₄]
    show ((g.pools ++ _).getD (g.pools.length + j) _).address = pa
    rw [getD_append_add]
    interval_cases j <;> rfl
  · intro i hi
    rw [hmain₄]
    show ((g.tokens ++ _).getD (g.tokens.length + i) _).neighbors.length = 3
    rw [getD_append_add]
    interval_cases i <;> rfl

/-- Claim C8, witness: the theorem applied to the empty graph with fresh
token addresses 1, 2, 3, 4 and component address 100. -/
theorem claimC8_witness :
    addProtocolComponent TradingGraph.new 100 [] =
      (TradingGraph.new, .error (.InvalidTokenCount 0)) ∧
    ∃ infos, (addProtocolComponent TradingGraph.new 100 [1, 2, 3]).2 =
      .ok infos ∧ infos.length = 3 :=
  ⟨(claimC8_add_protocol_component TradingGraph.new 100 1 2 3 4 (by decide)
      (by decide) (by decide) (by decide) (by decide) (by decide) rfl rfl rfl
      rfl (by simp [TradingGraph.new])).1 [] (by decide),
   (claimC8_add_protocol_component TradingGraph.new 100 1 2 3 4 (by decide)
      (by decide) (by decide) (by decide) (by decide) (by decide) rfl rfl rfl
      rfl (by simp [TradingGraph.new])).2.1⟩

end TychoArb
